import Mathlib

/-!
# Checked arrays of `IgorKonovalov6/pz`

A shallow embedding of the three programs of the repository:

* `pz6.cpp`  – `class Array`, an `int` array whose elements are kept in `[-100, 100]`;
* `pz9.cpp`  – `template<typename T> class Array` and `ArrayRangeChecker`;
* `main.cpp` – `class DynArray`, a buffer that doubles its capacity on overflow.

C++ exceptions are values of `Exception`.  A member function that may throw is a
function from the object's state to the pair *(what the call did, state of the
object afterwards)*; a constructor returns either the exception or the new object.
`int` values are `Int` (the programs do no arithmetic on elements of `pz6`), `size_t`
values are `Nat` with the wrap-around at `2 ^ 64` written out where the program
computes with them.  `new` is taken to succeed.
-/

set_option autoImplicit false

/-- The standard exceptions thrown by the programs, with the text of `what()`. -/
inductive Exception where
  | invalid_argument (what : String)
  | out_of_range (what : String)
  | bad_typeid
  deriving DecidableEq, Repr

deriving instance DecidableEq for Except

/-- Outcome of a call of a `void` member function: returned normally, or threw. -/
abbrev Outcome := Except Exception Unit

/-! ## Loops over raw buffers -/

/-- The loop `for (i = 0; i < n; i++) dst[i] = src[i];` – a read outside `src` is modelled as `dflt`,
a write outside `dst` as no write. -/
def copyLoop {T : Type} (dflt : T) (n : Nat) (src dst : List T) : List T :=
  (List.range n).foldl (fun d i => d.set i (src.getD i dflt)) dst

/-- The loop `for (i = 0; i < n; i++) dst[i] = value;` -/
def fillLoop {T : Type} (n : Nat) (value : T) (dst : List T) : List T :=
  (List.range n).foldl (fun d i => d.set i value) dst

/-- The allocation `new T[n]` where the program overwrites the cells it later reads (the
copy loops) or reads none of them: a fresh buffer of `n` cells, taken to hold `dflt`. -/
def newBuffer {T : Type} (dflt : T) (n : Nat) : List T :=
  List.replicate n dflt

/-- The allocation `new T[n]` with nothing known of the cells: a fresh buffer of `n` cells
in which cell `i` happens to hold `fresh i`. -/
def rawBuffer {T : Type} (fresh : Nat → T) (n : Nat) : List T :=
  (List.range n).map fresh

namespace Pz6

/-! ## `pz6.cpp`: the range-constrained `Array` -/

/-- The class `class Array { int* data; int size; }`: `data` is the content of the owned buffer. -/
structure Array where
  data : List Int
  size : Int
  deriving DecidableEq, Repr

/-- The buffer of the object has exactly `size` cells. -/
def Array.WF (a : Array) : Prop := (a.data.length : Int) = a.size

instance (a : Array) : Decidable a.WF :=
  inferInstanceAs (Decidable ((a.data.length : Int) = a.size))

/-- Member `bool isValidValue(int value) const` -/
def isValidValue (value : Int) : Bool :=
  decide (value ≥ -100) && decide (value ≤ 100)

/-- Member `bool isValidIndex(int index) const` -/
def Array.isValidIndex (a : Array) (index : Int) : Bool :=
  decide (index ≥ 0) && decide (index < a.size)

/-- Text of the `out_of_range` exception of `operator[]`, `setValue` and `getValue`. -/
def indexMessage (index size : Int) : String :=
  "Индекс " ++ toString index ++ " выходит за границы массива [0, " ++
    toString (size - 1) ++ "]"

/-- Text of the `invalid_argument` exception of a rejected write. -/
def valueMessage (value : Int) : String :=
  "Значение " ++ toString value ++ " должно быть в диапазоне [-100, 100]"

/-- Text of the `invalid_argument` exception of a rejected copy assignment. -/
def copyMessage (value : Int) : String :=
  "Невозможно скопировать массив: содержит значение " ++ toString value ++
    " вне диапазона [-100, 100]"

/-- Text of the `invalid_argument` exception of the constructor. -/
def sizeMessage : String := "Размер массива должен быть положительным числом"

/-- Constructor `Array(int size)`; `fresh` is what the cells of `new int[size]` hold before
the loop writes them. -/
def Array.ctor (fresh : Nat → Int) (size : Int) : Except Exception Array :=
  if size ≤ 0 then
    .error (.invalid_argument sizeMessage)
  else
    .ok { size := size, data := fillLoop size.toNat 0 (rawBuffer fresh size.toNat) }

/-- Constructor `Array(const Array& other)` -/
def Array.copyCtor (other : Array) : Except Exception Array :=
  .ok { size := other.size,
        data := copyLoop 0 other.size.toNat other.data (newBuffer 0 other.size.toNat) }

/-- The checking loop of `operator=`: the first `other.data[i]`, `i < other.size`, that is
not a valid value. -/
def Array.firstInvalid (other : Array) : Option Int :=
  ((List.range other.size.toNat).map (fun i => other.data.getD i 0)).find?
    (fun x => !isValidValue x)

/-- Member `Array& operator=(const Array& other)`; `sameObject` is `this == &other`. -/
def Array.assign (self other : Array) (sameObject : Bool) : Outcome × Array :=
  if sameObject then
    (.ok (), self)
  else
    match other.firstInvalid with
    | some x => (.error (.invalid_argument (copyMessage x)), self)
    | none =>
      (.ok (), { size := other.size,
                 data := copyLoop 0 other.size.toNat other.data
                           (newBuffer 0 other.size.toNat) })

/-- Member `int getSize() const` -/
def Array.getSize (a : Array) : Int := a.size

/-- Member `const int& operator[](int index) const` -/
def Array.constIndex (a : Array) (index : Int) : Except Exception Int :=
  if !a.isValidIndex index then
    .error (.out_of_range (indexMessage index a.size))
  else
    .ok (a.data.getD index.toNat 0)

/-- The class `class ArrayElement { Array& array; int index; }`: the array is the state the proxy's
members are run on. -/
structure ArrayElement where
  index : Int
  deriving DecidableEq, Repr

/-- Member `ArrayElement& ArrayElement::operator=(int value)` -/
def ArrayElement.assign (p : ArrayElement) (array : Array) (value : Int) : Outcome × Array :=
  if !isValidValue value then
    (.error (.invalid_argument (valueMessage value)), array)
  else
    (.ok (), { array with data := array.data.set p.index.toNat value })

/-- Member `ArrayElement::operator int() const` -/
def ArrayElement.toInt (p : ArrayElement) (array : Array) : Int :=
  array.data.getD p.index.toNat 0

/-- Member `ArrayElement operator[](int index)` -/
def Array.index (a : Array) (index : Int) : Except Exception ArrayElement :=
  if !a.isValidIndex index then
    .error (.out_of_range (indexMessage index a.size))
  else
    .ok { index := index }

/-- The statement `arr[index] = value;`: non-const `operator[]`, then the proxy's
`operator=`. -/
def Array.indexAssign (a : Array) (index value : Int) : Outcome × Array :=
  match a.index index with
  | .error e => (.error e, a)
  | .ok p => p.assign a value

/-- The expression `int(arr[index])` on a non-const array: non-const `operator[]`, then the
proxy's conversion. -/
def Array.indexRead (a : Array) (index : Int) : Except Exception Int :=
  match a.index index with
  | .error e => .error e
  | .ok p => .ok (p.toInt a)

/-- Member `void setValue(int index, int value)` -/
def Array.setValue (a : Array) (index value : Int) : Outcome × Array :=
  if !a.isValidIndex index then
    (.error (.out_of_range (indexMessage index a.size)), a)
  else if !isValidValue value then
    (.error (.invalid_argument (valueMessage value)), a)
  else
    (.ok (), { a with data := a.data.set index.toNat value })

/-- Member `int getValue(int index) const` -/
def Array.getValue (a : Array) (index : Int) : Except Exception Int :=
  if !a.isValidIndex index then
    .error (.out_of_range (indexMessage index a.size))
  else
    .ok (a.data.getD index.toNat 0)

/-- Member `void fill(int value)` -/
def Array.fill (a : Array) (value : Int) : Outcome × Array :=
  if !isValidValue value then
    (.error (.invalid_argument (valueMessage value)), a)
  else
    (.ok (), { a with data := fillLoop a.size.toNat value a.data })

/-! ### Which arrays a program can build -/

/-- The states an `Array` object can be in: built by `Array(n)` or by copy construction
from such an object, and then put through any calls of `setValue`, `arr[i] = v`, `fill` and
`operator=`; the state after a call counts whether the call returned or threw. -/
inductive Reachable : Array → Prop where
  | ctor (fresh : Nat → Int) (n : Int) (a : Array) : Array.ctor fresh n = .ok a → Reachable a
  | copyCtor (other a : Array) : Reachable other → other.copyCtor = .ok a → Reachable a
  | setValue (a : Array) (index value : Int) :
      Reachable a → Reachable (a.setValue index value).2
  | indexAssign (a : Array) (index value : Int) :
      Reachable a → Reachable (a.indexAssign index value).2
  | fill (a : Array) (value : Int) : Reachable a → Reachable (a.fill value).2
  | assign (a other : Array) :
      Reachable a → Reachable other → Reachable (a.assign other false).2
  | selfAssign (a : Array) : Reachable a → Reachable (a.assign a true).2

/-- What the class maintains: a positive size, a buffer of that many cells, every cell in
`[-100, 100]`. -/
structure Array.Inv (a : Array) : Prop where
  size_pos : 0 < a.size
  wf : a.WF
  inRange : ∀ x ∈ a.data, -100 ≤ x ∧ x ≤ 100

end Pz6

namespace Main

/-! ## `main.cpp`: the growable `DynArray` -/

/-- The type `size_t` is 64 bits wide: arithmetic on it wraps at `2 ^ 64`. -/
def SIZE_MOD : Nat := 2 ^ 64

/-- The class `class DynArray { int* data; size_t size; size_t capacity; }`: `data` is the content
of the owned buffer. -/
structure DynArray where
  data : List Int
  size : Nat
  capacity : Nat
  deriving DecidableEq, Repr

/-- Constructor `DynArray(size_t capacity = 10)` -/
def DynArray.ctor (capacity : Nat) : DynArray :=
  { size := 0, capacity := capacity, data := newBuffer 0 capacity }

/-- Member `void push_back(int value)` – a write past the end of the buffer is modelled as no
write. -/
def DynArray.push_back (a : DynArray) (value : Int) : DynArray :=
  let grown : DynArray :=
    if a.size ≥ a.capacity then
      let capacity := (a.capacity * 2) % SIZE_MOD
      let newdata := copyLoop 0 a.size a.data (newBuffer 0 capacity)
      { a with capacity := capacity, data := newdata }
    else
      a
  { grown with data := grown.data.set grown.size value, size := (grown.size + 1) % SIZE_MOD }

/-- Member `size_t getSize() const` -/
def DynArray.getSize (a : DynArray) : Nat := a.size

/-- Member `int operator[](size_t i) const` – no check; a read outside the buffer is modelled
as 0. -/
def DynArray.index (a : DynArray) (i : Nat) : Int := a.data.getD i 0

/-- The object after `push_back(v_0); ...; push_back(v_{N-1});`. -/
def DynArray.pushAll (a : DynArray) (values : List Int) : DynArray :=
  values.foldl DynArray.push_back a

/-- The buffer holds the values `l`, in order, in its first `size` cells, and is large
enough for them. -/
structure DynArray.Holds (a : DynArray) (l : List Int) : Prop where
  size_eq : a.size = l.length
  cap_pos : 0 < a.capacity
  cap_lt : a.capacity < SIZE_MOD
  size_le : a.size ≤ a.capacity
  buf : a.data.length = a.capacity
  elems : ∀ j : Nat, j < a.size → a.data[j]? = l[j]?

end Main

/-! ## The free store

To speak about copies that share no storage, the buffers are put in a store and the objects
hold addresses, as in the programs. -/

/-- The free store: the buffers obtained from `new[]`, by address; `none` once released by
`delete[]`.  Addresses are never handed out twice. -/
abbrev Store (T : Type) := List (Option (List T))

namespace Store

variable {T : Type}

/-- The allocation `new T[n]`: the address of the fresh buffer and the store holding it. -/
def new (s : Store T) (dflt : T) (n : Nat) : Nat × Store T :=
  (s.length, s ++ [some (newBuffer dflt n)])

/-- The release `delete[] p` -/
def delete (s : Store T) (p : Nat) : Store T :=
  s.set p none

/-- The content of the buffer at address `p` (empty when there is none). -/
def buffer (s : Store T) (p : Nat) : List T :=
  match s[p]? with
  | some (some b) => b
  | _ => []

/-- The value of `p[i]`. -/
def read (s : Store T) (dflt : T) (p i : Nat) : T :=
  (s.buffer p).getD i dflt

/-- The store `p[i] = v;` -/
def write (s : Store T) (p i : Nat) (v : T) : Store T :=
  match s[p]? with
  | some (some b) => s.set p (some (b.set i v))
  | _ => s

/-- The loop `for (i = 0; i < n; i++) dst[i] = src[i];` on buffers in the store. -/
def copyCells (s : Store T) (dflt : T) (n dst src : Nat) : Store T :=
  (List.range n).foldl (fun st i => st.write dst i (st.read dflt src i)) s

/-- In the store `s2` the buffer at `cp` is a deep copy of the buffer that `src` had in the
store `s1`: other storage, the same elements in the same places, the source as it was, and
no write through `cp` reaches the source. -/
structure DeepCopy (s1 s2 : Store T) (src cp : Nat) : Prop where
  fresh : cp ≠ src
  same_length : (s2.buffer cp).length = (s1.buffer src).length
  same_elems : ∀ i : Nat, i < (s1.buffer src).length → (s2.buffer cp)[i]? = (s1.buffer src)[i]?
  source_kept : s2.buffer src = s1.buffer src
  write_apart : ∀ (j : Nat) (v : T), (s2.write cp j v).buffer src = s1.buffer src

end Store

namespace Pz6

/-! ### `pz6.cpp`, copying, with the buffers in the store -/

/-- The class `class Array { int* data; int size; }` with `data` an address in the store. -/
structure ArrayObj where
  data : Nat
  size : Int
  deriving DecidableEq, Repr

/-- The array an object stands for: the content of its buffer and its size. -/
def ArrayObj.view (s : Store Int) (o : ArrayObj) : Array :=
  { data := s.buffer o.data, size := o.size }

/-- Constructor `Array(const Array& other)` -/
def ArrayObj.copyCtor (s : Store Int) (other : ArrayObj) :
    Except Exception ArrayObj × Store Int :=
  let size := other.size
  let (data, s1) := s.new 0 size.toNat
  (.ok { size := size, data := data }, s1.copyCells 0 size.toNat data other.data)

/-- Member `Array& operator=(const Array& other)`; `sameObject` is `this == &other`. -/
def ArrayObj.assign (s : Store Int) (self other : ArrayObj) (sameObject : Bool) :
    Outcome × ArrayObj × Store Int :=
  if sameObject then
    (.ok (), self, s)
  else
    match (other.view s).firstInvalid with
    | some x => (.error (.invalid_argument (copyMessage x)), self, s)
    | none =>
      let s1 := s.delete self.data
      let size := other.size
      let (data, s2) := s1.new 0 size.toNat
      (.ok (), { size := size, data := data }, s2.copyCells 0 size.toNat data other.data)

end Pz6

namespace Pz9

/-! ## `pz9.cpp`: copying the generic `Array<T>`, with the buffers in the store -/

/-- The class `template<typename T> class Array { T* data; size_t size; }` with `data` an address in
the store. -/
structure ArrayObj where
  data : Nat
  size : Nat
  deriving DecidableEq, Repr

variable {T : Type}

/-- Constructor `Array(const Array& other)`; `dflt` is `T()`, the value of the cells of `new T[size]`. -/
def ArrayObj.copyCtor (dflt : T) (s : Store T) (other : ArrayObj) :
    Except Exception ArrayObj × Store T :=
  let size := other.size
  let (data, s1) := s.new dflt size
  (.ok { size := size, data := data }, s1.copyCells dflt size data other.data)

/-- Member `Array& operator=(const Array& other)`; `sameObject` is `this == &other`. -/
def ArrayObj.assign (dflt : T) (s : Store T) (self other : ArrayObj) (sameObject : Bool) :
    Outcome × ArrayObj × Store T :=
  if sameObject then
    (.ok (), self, s)
  else
    let s1 := s.delete self.data
    let size := other.size
    let (data, s2) := s1.new dflt size
    (.ok (), { size := size, data := data }, s2.copyCells dflt size data other.data)

end Pz9

namespace Pz9

/-! ## `pz9.cpp`: the generic `Array<T>` and `ArrayRangeChecker` -/

/-- The type `size_t` is 64 bits wide: arithmetic on it wraps at `2 ^ 64`. -/
def SIZE_MOD : Nat := 2 ^ 64

/-- The arithmetic of `double` that `euclideanDistance` uses: `0.0`, `+`, `-`, `*`,
`std::sqrt`, and the conversion of an `int`. -/
structure DoubleOps (D : Type) where
  zero : D
  add : D → D → D
  sub : D → D → D
  mul : D → D → D
  sqrt : D → D
  ofInt : Int → D

/-- The arithmetic of a ring with a square root function, read as `double` arithmetic
without rounding. -/
def DoubleOps.ofRing (R : Type) [Ring R] (sqrt : R → R) : DoubleOps R :=
  { zero := 0
    add := fun x y => x + y
    sub := fun x y => x - y
    mul := fun x y => x * y
    sqrt := sqrt
    ofInt := fun n => (n : R) }

/-- What the overloads for an arithmetic element type use of it: `a < b` (`a > b` is
`b < a`), `std::to_string`, and `static_cast<double>`. -/
structure Arithmetic (T D : Type) where
  lt : T → T → Bool
  toString : T → String
  toDouble : T → D

/-- The overload selection `std::is_arithmetic<T>::value`, fixed by the element type. -/
inductive ElemKind (T D : Type) where
  | arithmetic (ops : Arithmetic T D)
  | nonArithmetic

/-- The element type `int`. -/
def intKind {D : Type} (fl : DoubleOps D) : ElemKind Int D :=
  .arithmetic
    { lt := fun a b => decide (a < b)
      toString := fun a => toString a
      toDouble := fl.ofInt }

/-- The element type `std::string`. -/
def stringKind : ElemKind String Unit := .nonArithmetic

/-- The class `template<typename T> class Array { T* data; size_t size; }`: `data` is the
content of the owned buffer. -/
structure Array (T : Type) where
  data : List T
  size : Nat
  deriving DecidableEq, Repr

variable {T D : Type}

/-- The buffer of the object has exactly `size` cells. -/
def Array.WF (a : Array T) : Prop := a.data.length = a.size

instance (a : Array T) : Decidable a.WF :=
  inferInstanceAs (Decidable (a.data.length = a.size))

/-- Text of the `invalid_argument` exception of the constructor. -/
def sizeMessage : String := "Размер массива должен быть положительным числом"

/-- Text of the `out_of_range` exception of `at`; `size - 1` is computed in `size_t`. -/
def atMessage (index size : Nat) : String :=
  "Индекс " ++ toString index ++ " выходит за границы массива [0, " ++
    toString ((size + SIZE_MOD - 1) % SIZE_MOD) ++ "]"

/-- Text of the `out_of_range` exception of `setWithCheck`. -/
def setMessage (index : Nat) : String :=
  "Индекс " ++ toString index ++ " выходит за границы массива"

/-- Text of the `invalid_argument` exception of `euclideanDistance`. -/
def mismatchMessage (size1 size2 : Nat) : String :=
  "Массивы должны иметь одинаковый размер: " ++ toString size1 ++ " != " ++ toString size2

/-- Text of the `invalid_argument` exception of `setWithRangeCheck`. -/
def rangeMessage (value minVal maxVal : String) : String :=
  "Значение " ++ value ++ " должно быть в диапазоне [" ++ minVal ++ ", " ++ maxVal ++ "]"

/-- Constructor `explicit Array(size_t size)`; `dflt` is `T()`, `fresh` is what the cells of
`new T[size]` hold before the loop writes them. -/
def Array.ctor (fresh : Nat → T) (dflt : T) (size : Nat) : Except Exception (Array T) :=
  if size ≤ 0 then
    .error (.invalid_argument sizeMessage)
  else
    .ok { size := size, data := fillLoop size dflt (rawBuffer fresh size) }

/-- Member `size_t getSize() const` -/
def Array.getSize (a : Array T) : Nat := a.size

/-- Member `T& operator[](size_t index)` (and its const twin), read: no check; a read
outside the buffer is modelled as `dflt`. -/
def Array.index (dflt : T) (a : Array T) (index : Nat) : T :=
  a.data.getD index dflt

/-- Member `T& at(size_t index)` (and its const twin), read. -/
def Array.at (dflt : T) (a : Array T) (index : Nat) : Except Exception T :=
  if index ≥ a.size then
    .error (.out_of_range (atMessage index a.size))
  else
    .ok (a.data.getD index dflt)

/-- Member `setWithCheck(size_t index, U value)`, both overloads. -/
def Array.setWithCheck (k : ElemKind T D) (a : Array T) (index : Nat) (value : T) :
    Outcome × Array T :=
  match k with
  | .arithmetic _ =>
    if index ≥ a.size then
      (.error (.out_of_range (setMessage index)), a)
    else
      (.ok (), { a with data := a.data.set index value })
  | .nonArithmetic =>
    if index ≥ a.size then
      (.error (.out_of_range (setMessage index)), a)
    else
      (.ok (), { a with data := a.data.set index value })

/-- The loop of `euclideanDistance`:
`for (i = 0; i < n; i++) { double diff = double(d1[i]) - double(d2[i]); sum += diff * diff; }`
from `sum = 0.0`. -/
def distanceLoop (fl : DoubleOps D) (toDouble : T → D) (dflt : T) (n : Nat)
    (d1 d2 : List T) : D :=
  (List.range n).foldl
    (fun sum i =>
      let diff := fl.sub (toDouble (d1.getD i dflt)) (toDouble (d2.getD i dflt))
      fl.add sum (fl.mul diff diff))
    fl.zero

/-- Member `static double euclideanDistance(const Array<U>& arr1, const Array<U>& arr2)`,
both overloads. -/
def Array.euclideanDistance (fl : DoubleOps D) (k : ElemKind T D) (dflt : T)
    (arr1 arr2 : Array T) : Except Exception D :=
  match k with
  | .arithmetic ops =>
    if arr1.size ≠ arr2.size then
      .error (.invalid_argument (mismatchMessage arr1.size arr2.size))
    else
      .ok (fl.sqrt (distanceLoop fl ops.toDouble dflt arr1.size arr1.data arr2.data))
  | .nonArithmetic => .error .bad_typeid

/-- Member `ArrayRangeChecker<T>::setWithRangeCheck(arr, index, value, minVal, maxVal)`,
both overloads. -/
def ArrayRangeChecker.setWithRangeCheck (k : ElemKind T D) (arr : Array T) (index : Nat)
    (value minVal maxVal : T) : Outcome × Array T :=
  match k with
  | .arithmetic ops =>
    if ops.lt value minVal || ops.lt maxVal value then
      (.error (.invalid_argument
        (rangeMessage (ops.toString value) (ops.toString minVal) (ops.toString maxVal))), arr)
    else
      arr.setWithCheck k index value
  | .nonArithmetic => arr.setWithCheck k index value

end Pz9

/-! ## Texts of exceptions -/

/-- The text `part` occurs in the text `msg`, as a run of consecutive characters. -/
def Contains (msg part : String) : Prop := part.data <:+: msg.data

instance (msg part : String) : Decidable (Contains msg part) :=
  inferInstanceAs (Decidable (part.data <:+: msg.data))

/-- The range `[0, last]` as the messages of `pz6.cpp` and `pz9.cpp` write it. -/
def rangeText (last : String) : String := "[0, " ++ last ++ "]"

namespace Pz9

/-! ### `pz9.cpp`: arrays of `double` -/

/-- The arithmetic `base` with a NaN adjoined: `none` is NaN, the result of every operation
that has a NaN operand; on numbers the operations are those of `base`. -/
def DoubleOps.withNaN {R : Type} (base : DoubleOps R) : DoubleOps (Option R) :=
  { zero := some base.zero
    add := fun x y =>
      match x, y with
      | some a, some b => some (base.add a b)
      | _, _ => none
    sub := fun x y =>
      match x, y with
      | some a, some b => some (base.sub a b)
      | _, _ => none
    mul := fun x y =>
      match x, y with
      | some a, some b => some (base.mul a b)
      | _, _ => none
    sqrt := fun x =>
      match x with
      | some a => some (base.sqrt a)
      | none => none
    ofInt := fun n => some (base.ofInt n) }

/-- The element type `double`, with NaN: `a < b` is false when an operand is NaN,
`std::to_string` of NaN is `nan`, and `static_cast<double>` changes nothing. -/
def doubleKind {R : Type} (lt : R → R → Bool) (toString : R → String) :
    ElemKind (Option R) (Option R) :=
  .arithmetic
    { lt := fun x y =>
        match x, y with
        | some a, some b => lt a b
        | _, _ => false
      toString := fun x =>
        match x with
        | some a => toString a
        | none => "nan"
      toDouble := fun x => x }

end Pz9

/-! ## Facts about the buffer loops -/

section Loops

variable {T : Type}

theorem setLoop_length (f : Nat → T) (n : Nat) (dst : List T) :
    ((List.range n).foldl (fun d i => d.set i (f i)) dst).length = dst.length := by
  induction n with
  | zero => simp
  | succ k ih => simp [List.range_succ, List.foldl_append, ih]

theorem setLoop_getElem? (f : Nat → T) (n : Nat) (dst : List T) (j : Nat) :
    ((List.range n).foldl (fun d i => d.set i (f i)) dst)[j]? =
      if j < n ∧ j < dst.length then some (f j) else dst[j]? := by
  induction n with
  | zero => simp
  | succ k ih =>
    simp only [List.range_succ, List.foldl_append, List.foldl_cons, List.foldl_nil]
    rw [List.getElem?_set, ih, setLoop_length]
    by_cases hjk : k = j
    · subst hjk
      by_cases hl : k < dst.length
      · simp [hl]
      · simp [hl]
        omega
    · have : j < k + 1 ↔ j < k := by omega
      simp [hjk, this]

theorem setLoop_eq_map (f : Nat → T) (n : Nat) (dst : List T) (h : dst.length = n) :
    (List.range n).foldl (fun d i => d.set i (f i)) dst = (List.range n).map f := by
  apply List.ext_getElem?
  intro j
  rw [setLoop_getElem?]
  by_cases hj : j < n
  · simp [hj, h]
  · have h1 : dst.length ≤ j := by omega
    have h2 : ((List.range n).map f).length ≤ j := by simp; omega
    rw [List.getElem?_eq_none h1, List.getElem?_eq_none h2]
    simp [hj]

theorem fillLoop_length (n : Nat) (value : T) (dst : List T) :
    (fillLoop n value dst).length = dst.length :=
  setLoop_length (fun _ => value) n dst

theorem copyLoop_length (dflt : T) (n : Nat) (src dst : List T) :
    (copyLoop dflt n src dst).length = dst.length :=
  setLoop_length (fun i => src.getD i dflt) n dst

theorem fillLoop_eq (n : Nat) (value : T) (dst : List T) (h : dst.length = n) :
    fillLoop n value dst = List.replicate n value := by
  unfold fillLoop
  rw [setLoop_eq_map (fun _ => value) n dst h]
  apply List.ext_getElem?
  intro j
  by_cases hj : j < n
  · simp [hj, List.getElem?_replicate]
  · simp [hj, List.getElem?_replicate]

theorem copyLoop_eq_map (dflt : T) (n : Nat) (src dst : List T) (h : dst.length = n) :
    copyLoop dflt n src dst = (List.range n).map (fun i => src.getD i dflt) :=
  setLoop_eq_map (fun i => src.getD i dflt) n dst h

theorem copyLoop_eq (dflt : T) (n : Nat) (src dst : List T) (hs : src.length = n)
    (h : dst.length = n) : copyLoop dflt n src dst = src := by
  rw [copyLoop_eq_map dflt n src dst h]
  apply List.ext_getElem?
  intro j
  by_cases hj : j < n
  · have hj2 : j < src.length := by omega
    simp [hj, List.getD_eq_getElem?_getD, List.getElem?_eq_getElem hj2]
  · have h1 : src.length ≤ j := by omega
    have h2 : ((List.range n).map (fun i => src.getD i dflt)).length ≤ j := by simp; omega
    rw [List.getElem?_eq_none h1, List.getElem?_eq_none h2]

theorem newBuffer_length (dflt : T) (n : Nat) : (newBuffer dflt n).length = n := by
  simp [newBuffer]

theorem rawBuffer_length (fresh : Nat → T) (n : Nat) : (rawBuffer fresh n).length = n := by
  simp [rawBuffer]

end Loops

namespace Pz6

/-! ## `pz6.cpp`: the class invariant -/

theorem isValidValue_iff (v : Int) : isValidValue v = true ↔ -100 ≤ v ∧ v ≤ 100 := by
  simp [isValidValue]

theorem isValidValue_false_iff (v : Int) : isValidValue v = false ↔ v < -100 ∨ 100 < v := by
  rw [← Bool.not_eq_true, isValidValue_iff]
  omega

theorem isValidIndex_iff (a : Array) (i : Int) :
    a.isValidIndex i = true ↔ 0 ≤ i ∧ i < a.size := by
  simp [Array.isValidIndex]

theorem isValidIndex_false_iff (a : Array) (i : Int) :
    a.isValidIndex i = false ↔ i < 0 ∨ a.size ≤ i := by
  rw [← Bool.not_eq_true, isValidIndex_iff]
  omega

theorem WF.length_eq {a : Array} (h : a.WF) : a.data.length = a.size.toNat := by
  unfold Array.WF at h
  omega

/-- On a well-formed source the copy loop reproduces the source buffer. -/
theorem copy_data_eq (other : Array) (h : other.WF) :
    copyLoop 0 other.size.toNat other.data (newBuffer 0 other.size.toNat) = other.data :=
  copyLoop_eq 0 _ _ _ (WF.length_eq h) (newBuffer_length 0 _)

theorem firstInvalid_of_wf (other : Array) (h : other.WF) :
    other.firstInvalid = other.data.find? (fun x => !isValidValue x) := by
  unfold Array.firstInvalid
  have := copyLoop_eq_map (0 : Int) other.size.toNat other.data
    (newBuffer 0 other.size.toNat) (newBuffer_length 0 _)
  rw [← this, copy_data_eq other h]

theorem inv_set (a : Array) (i : Nat) (v : Int) (h : a.Inv) (hv : -100 ≤ v ∧ v ≤ 100) :
    Array.Inv { a with data := a.data.set i v } := by
  refine ⟨h.size_pos, ?_, ?_⟩
  · have := h.wf
    simp only [Array.WF, List.length_set] at *
    exact this
  · intro x hx
    rcases List.mem_or_eq_of_mem_set hx with hx | hx
    · exact h.inRange x hx
    · exact hx ▸ hv

theorem inv_setValue (a : Array) (index value : Int) (h : a.Inv) :
    (a.setValue index value).2.Inv := by
  unfold Array.setValue
  split
  · exact h
  · split
    · exact h
    · rename_i hv
      simp only [Bool.not_eq_true, Bool.not_eq_false, Bool.not_eq_eq_eq_not, Bool.not_true,
        Bool.not_false] at hv
      exact inv_set a _ value h ((isValidValue_iff value).1 (by simpa using hv))

theorem indexAssign_eq (a : Array) (index value : Int) :
    a.indexAssign index value = a.setValue index value := by
  unfold Array.indexAssign Array.index Array.setValue ArrayElement.assign
  by_cases hi : a.isValidIndex index = true
  · simp [hi]
  · simp [hi]

theorem inv_fill (a : Array) (value : Int) (h : a.Inv) : (a.fill value).2.Inv := by
  unfold Array.fill
  split
  · exact h
  · rename_i hv
    have hv2 : isValidValue value = true := by simpa using hv
    have hlen := WF.length_eq h.wf
    refine ⟨h.size_pos, ?_, ?_⟩
    · have := h.wf
      simp only [Array.WF, fillLoop_length] at *
      exact this
    · intro x hx
      simp only [fillLoop_eq _ value a.data hlen] at hx
      rw [List.eq_of_mem_replicate hx]
      exact (isValidValue_iff value).1 hv2

theorem inv_ctor (fresh : Nat → Int) (n : Int) (a : Array) (h : Array.ctor fresh n = .ok a) :
    a.Inv := by
  unfold Array.ctor at h
  split at h
  · cases h
  · rename_i hn
    injection h with h
    subst h
    refine ⟨by simpa using hn, ?_, ?_⟩
    · simp only [Array.WF, fillLoop_length, rawBuffer_length]
      omega
    · intro x hx
      simp only [fillLoop_eq _ (0 : Int) _ (rawBuffer_length fresh _)] at hx
      rw [List.eq_of_mem_replicate hx]
      omega

theorem inv_copy (other : Array) (h : other.Inv) :
    Array.Inv { size := other.size,
                data := copyLoop 0 other.size.toNat other.data
                          (newBuffer 0 other.size.toNat) } := by
  rw [copy_data_eq other h.wf]
  exact ⟨h.size_pos, h.wf, h.inRange⟩

theorem inv_assign (a other : Array) (same : Bool) (h : a.Inv) (ho : other.Inv) :
    (a.assign other same).2.Inv := by
  unfold Array.assign
  split
  · exact h
  · split
    · exact h
    · exact inv_copy other ho

theorem reachable_inv (a : Array) (h : Reachable a) : a.Inv := by
  induction h with
  | ctor fresh n a h => exact inv_ctor fresh n a h
  | copyCtor other a _ hc ih =>
    unfold Array.copyCtor at hc
    injection hc with hc
    subst hc
    exact inv_copy other ih
  | setValue a index value _ ih => exact inv_setValue a index value ih
  | indexAssign a index value _ ih =>
    rw [indexAssign_eq]
    exact inv_setValue a index value ih
  | fill a value _ ih => exact inv_fill a value ih
  | assign a other _ _ ih1 ih2 => exact inv_assign a other false ih1 ih2
  | selfAssign a _ ih => exact inv_assign a a true ih ih

/-! ### Claims about `pz6.cpp` -/

/-- C1. Range invariant of the constrained array: an `Array` built by `Array(n)` (or copied
from such an array) and put through any sequence of `setValue`, `arr[i] = v`, `fill`, copy
construction and copy assignment, failed calls included, has `size > 0`, a buffer of `size`
cells, and at every index of `[0, size)` an element of `[-100, 100]`. -/
theorem range_invariant (a : Array) (h : Reachable a) :
    0 < a.size ∧ (a.data.length : Int) = a.size ∧
      ∀ i : Int, 0 ≤ i → i < a.size →
        ∃ x : Int, a.data[i.toNat]? = some x ∧ a.getValue i = .ok x ∧ -100 ≤ x ∧ x ≤ 100 := by
  have hinv := reachable_inv a h
  refine ⟨hinv.size_pos, hinv.wf, ?_⟩
  intro i h0 h1
  have hlt : i.toNat < a.data.length := by
    have := hinv.wf
    unfold Array.WF at this
    omega
  refine ⟨a.data[i.toNat], List.getElem?_eq_getElem hlt, ?_, hinv.inRange _ (List.getElem_mem hlt)⟩
  have hv : a.isValidIndex i = true := (isValidIndex_iff a i).2 ⟨h0, h1⟩
  simp [Array.getValue, hv, List.getD_eq_getElem?_getD, List.getElem?_eq_getElem hlt]

/-- Witness of C1: the array after `Array arr(2); arr.setValue(0, 5); arr[1] = 200;`. -/
theorem range_invariant_witness :
    Reachable ⟨[5, 0], 2⟩ ∧
      (0 < (⟨[5, 0], 2⟩ : Array).size ∧
        (((⟨[5, 0], 2⟩ : Array).data.length : Int) = (⟨[5, 0], 2⟩ : Array).size) ∧
        ∀ i : Int, 0 ≤ i → i < (⟨[5, 0], 2⟩ : Array).size →
          ∃ x : Int, (⟨[5, 0], 2⟩ : Array).data[i.toNat]? = some x ∧
            (⟨[5, 0], 2⟩ : Array).getValue i = .ok x ∧ -100 ≤ x ∧ x ≤ 100) :=
  have hr : Reachable ⟨[5, 0], 2⟩ :=
    Reachable.indexAssign ⟨[5, 0], 2⟩ 1 200
      (Reachable.setValue ⟨[0, 0], 2⟩ 0 5 (Reachable.ctor (fun i => (i : Int) + 7) 2 ⟨[0, 0], 2⟩ (by decide)))
  ⟨hr, range_invariant ⟨[5, 0], 2⟩ hr⟩

/-- C2. For a valid index `i`, `setValue(i, v)` returns normally exactly when
`-100 ≤ v ≤ 100` and otherwise throws `invalid_argument` with the text for `v`;
`setValue(i, 150)` throws, `setValue(i, 100)` and `setValue(i, -100)` return. -/
theorem setValue_ok_iff (a : Array) (i v : Int) (h0 : 0 ≤ i) (h1 : i < a.size) :
    ((a.setValue i v).1 = .ok () ↔ -100 ≤ v ∧ v ≤ 100) ∧
      (¬ (-100 ≤ v ∧ v ≤ 100) →
        (a.setValue i v).1 = .error (.invalid_argument (valueMessage v))) ∧
      (a.setValue i 150).1 = .error (.invalid_argument (valueMessage 150)) ∧
      (a.setValue i 100).1 = .ok () ∧
      (a.setValue i (-100)).1 = .ok () := by
  have hi : a.isValidIndex i = true := (isValidIndex_iff a i).2 ⟨h0, h1⟩
  have key : ∀ w : Int, (a.setValue i w).1 =
      if isValidValue w = true then .ok () else .error (.invalid_argument (valueMessage w)) := by
    intro w
    by_cases hw : isValidValue w = true
    · simp [Array.setValue, hi, hw]
    · simp [Array.setValue, hi, hw]
  refine ⟨?_, ?_, ?_, ?_, ?_⟩
  · rw [key, ← isValidValue_iff]
    by_cases hw : isValidValue v = true
    · simp [hw]
    · simp [hw]
  · intro hv
    rw [← isValidValue_iff] at hv
    rw [key]
    simp [hv]
  · rw [key]; rfl
  · rw [key]; rfl
  · rw [key]; rfl

/-- Witness of C2: index 1 of the array `[0, 0, 0]`, value 7. -/
theorem setValue_ok_iff_witness :
    (((⟨[0, 0, 0], 3⟩ : Array).setValue 1 7).1 = .ok () ↔ (-100 : Int) ≤ 7 ∧ (7 : Int) ≤ 100) ∧
      (¬ ((-100 : Int) ≤ 7 ∧ (7 : Int) ≤ 100) →
        ((⟨[0, 0, 0], 3⟩ : Array).setValue 1 7).1 =
          .error (.invalid_argument (valueMessage 7))) ∧
      ((⟨[0, 0, 0], 3⟩ : Array).setValue 1 150).1 =
        .error (.invalid_argument (valueMessage 150)) ∧
      ((⟨[0, 0, 0], 3⟩ : Array).setValue 1 100).1 = .ok () ∧
      ((⟨[0, 0, 0], 3⟩ : Array).setValue 1 (-100)).1 = .ok () :=
  setValue_ok_iff ⟨[0, 0, 0], 3⟩ 1 7 (by decide) (by decide)

/-- C3. Proxy/setter equivalence: `arr[index] = value` and `arr.setValue(index, value)` give
the same outcome and the same array, for every array, index and value; when they throw, the
exception is `out_of_range` (bad index) or `invalid_argument` (bad value) and the array is
as before. -/
theorem indexAssign_eq_setValue (a : Array) (index value : Int) :
    a.indexAssign index value = a.setValue index value ∧
      ((a.setValue index value).1 = .ok () ∨
        (a.setValue index value = (.error (.out_of_range (indexMessage index a.size)), a) ∧
          (index < 0 ∨ a.size ≤ index)) ∨
        (a.setValue index value = (.error (.invalid_argument (valueMessage value)), a) ∧
          (value < -100 ∨ 100 < value))) := by
  refine ⟨indexAssign_eq a index value, ?_⟩
  by_cases hi : a.isValidIndex index = true
  · by_cases hv : isValidValue value = true
    · left
      simp [Array.setValue, hi, hv]
    · right; right
      refine ⟨by simp [Array.setValue, hi, hv], ?_⟩
      exact (isValidValue_false_iff value).1 (by simpa using hv)
  · right; left
    refine ⟨by simp [Array.setValue, hi], ?_⟩
    exact (isValidIndex_false_iff a index).1 (by simpa using hi)

/-- C4. Every access path checks the index: the indexed read (`operator[] const`), the
creation of the write proxy (non-const `operator[]`), `getValue` and `setValue` (whatever
the value) throw `out_of_range` exactly when `index < 0` or `index ≥ size`, and then with
the text built from the index and the size. -/
theorem index_checked_on_every_path (a : Array) (index value : Int) :
    ((∃ m, a.constIndex index = .error (.out_of_range m)) ↔ (index < 0 ∨ index ≥ a.size)) ∧
      ((∃ m, a.index index = .error (.out_of_range m)) ↔ (index < 0 ∨ index ≥ a.size)) ∧
      ((∃ m, a.getValue index = .error (.out_of_range m)) ↔ (index < 0 ∨ index ≥ a.size)) ∧
      ((∃ m, (a.setValue index value).1 = .error (.out_of_range m)) ↔
        (index < 0 ∨ index ≥ a.size)) ∧
      ((index < 0 ∨ index ≥ a.size) →
        a.constIndex index = .error (.out_of_range (indexMessage index a.size)) ∧
        a.index index = .error (.out_of_range (indexMessage index a.size)) ∧
        a.getValue index = .error (.out_of_range (indexMessage index a.size)) ∧
        a.setValue index value = (.error (.out_of_range (indexMessage index a.size)), a)) := by
  by_cases hi : a.isValidIndex index = true
  · have hin := (isValidIndex_iff a index).1 hi
    have hno : ¬ (index < 0 ∨ index ≥ a.size) := by omega
    refine ⟨?_, ?_, ?_, ?_, fun h => absurd h hno⟩
    · simp [Array.constIndex, hi, hno]
    · simp [Array.index, hi, hno]
    · simp [Array.getValue, hi, hno]
    · by_cases hv : isValidValue value = true
      · simp [Array.setValue, hi, hv, hno]
      · simp [Array.setValue, hi, hv, hno]
  · have hout : index < 0 ∨ index ≥ a.size := by
      have := (isValidIndex_false_iff a index).1 (by simpa using hi)
      omega
    refine ⟨?_, ?_, ?_, ?_, fun _ => ⟨?_, ?_, ?_, ?_⟩⟩
    · simp [Array.constIndex, hi, hout]
    · simp [Array.index, hi, hout]
    · simp [Array.getValue, hi, hout]
    · simp [Array.setValue, hi, hout]
    · simp [Array.constIndex, hi]
    · simp [Array.index, hi]
    · simp [Array.getValue, hi]
    · simp [Array.setValue, hi]

/-- C5. Failed writes are atomic: for a valid index `i` and a value `v` outside
`[-100, 100]`, `arr[i] = v`, `setValue(i, v)` and `fill(v)` throw `invalid_argument` and
leave the array (size and every element, element `i` included) as it was; more generally
any throwing `setValue`, indexed assignment or `fill` leaves the array as it was. -/
theorem failed_write_leaves_array (a : Array) (i v : Int) (h0 : 0 ≤ i) (h1 : i < a.size)
    (hv : v < -100 ∨ 100 < v) :
    a.indexAssign i v = (.error (.invalid_argument (valueMessage v)), a) ∧
      a.setValue i v = (.error (.invalid_argument (valueMessage v)), a) ∧
      a.fill v = (.error (.invalid_argument (valueMessage v)), a) ∧
      (∀ (j w : Int) (e : Exception), (a.setValue j w).1 = .error e → (a.setValue j w).2 = a) ∧
      (∀ (j w : Int) (e : Exception),
        (a.indexAssign j w).1 = .error e → (a.indexAssign j w).2 = a) ∧
      (∀ (w : Int) (e : Exception), (a.fill w).1 = .error e → (a.fill w).2 = a) := by
  have hi : a.isValidIndex i = true := (isValidIndex_iff a i).2 ⟨h0, h1⟩
  have hbad : isValidValue v = false := (isValidValue_false_iff v).2 hv
  have hset : ∀ (j w : Int) (e : Exception),
      (a.setValue j w).1 = .error e → (a.setValue j w).2 = a := by
    intro j w e
    unfold Array.setValue
    split
    · intro _; rfl
    · split
      · intro _; rfl
      · intro h; cases h
  refine ⟨?_, ?_, ?_, hset, ?_, ?_⟩
  · rw [indexAssign_eq]
    simp [Array.setValue, hi, hbad]
  · simp [Array.setValue, hi, hbad]
  · simp [Array.fill, hbad]
  · intro j w e
    rw [indexAssign_eq]
    exact hset j w e
  · intro w e
    unfold Array.fill
    split
    · intro _; rfl
    · intro h; cases h

/-- Witness of C5: `arr[1] = 200` on the array `[10, -50, 100]`. -/
theorem failed_write_leaves_array_witness :
    (⟨[10, -50, 100], 3⟩ : Array).indexAssign 1 200 =
      (.error (.invalid_argument (valueMessage 200)), ⟨[10, -50, 100], 3⟩) :=
  (failed_write_leaves_array ⟨[10, -50, 100], 3⟩ 1 200 (by decide) (by decide)
    (Or.inr (by decide))).1

/-- C6. Read-after-write: for a valid index `i` and `v` in `[-100, 100]`, `setValue(i, v)`
and `arr[i] = v` return normally with the same array, in which `getValue(i)`, the const
`operator[]` and the proxy's conversion to `int` all give `v`, every other element is
the one it was, and the size is the one it was. -/
theorem read_after_write (a : Array) (hwf : a.WF) (i v : Int) (h0 : 0 ≤ i) (h1 : i < a.size)
    (hv0 : -100 ≤ v) (hv1 : v ≤ 100) :
    (a.setValue i v).1 = .ok () ∧
      a.indexAssign i v = a.setValue i v ∧
      (a.setValue i v).2.getValue i = .ok v ∧
      (a.setValue i v).2.constIndex i = .ok v ∧
      (a.setValue i v).2.indexRead i = .ok v ∧
      (∀ k : Nat, k ≠ i.toNat → (a.setValue i v).2.data[k]? = a.data[k]?) ∧
      (∀ j : Int, j ≠ i → (a.setValue i v).2.getValue j = a.getValue j) ∧
      (a.setValue i v).2.size = a.size ∧
      (a.setValue i v).2.data.length = a.data.length := by
  have hi : a.isValidIndex i = true := (isValidIndex_iff a i).2 ⟨h0, h1⟩
  have hval : isValidValue v = true := (isValidValue_iff v).2 ⟨hv0, hv1⟩
  have hlt : i.toNat < a.data.length := by
    unfold Array.WF at hwf
    omega
  have hres : a.setValue i v = (.ok (), { a with data := a.data.set i.toNat v }) := by
    simp [Array.setValue, hi, hval]
  have hi2 : Array.isValidIndex { a with data := a.data.set i.toNat v } i = true := hi
  have hget : (a.data.set i.toNat v).getD i.toNat 0 = v := by
    simp [List.getD_eq_getElem?_getD, List.getElem?_set, hlt]
  rw [indexAssign_eq, hres]
  refine ⟨rfl, rfl, ?_, ?_, ?_, ?_, ?_, rfl, by simp⟩
  · simpa [Array.getValue, hi2] using hget
  · simpa [Array.constIndex, hi2] using hget
  · simpa [Array.indexRead, Array.index, ArrayElement.toInt, hi2] using hget
  · intro k hk
    simp [List.getElem?_set, Ne.symm hk]
  · intro j hj
    have hvj : Array.isValidIndex { a with data := a.data.set i.toNat v } j =
        a.isValidIndex j := rfl
    by_cases hjv : a.isValidIndex j = true
    · have hjin := (isValidIndex_iff a j).1 hjv
      have hne : i.toNat ≠ j.toNat := by omega
      simp [Array.getValue, hvj, hjv, List.getD_eq_getElem?_getD, List.getElem?_set, hne]
    · simp [Array.getValue, hvj, hjv]

/-- Witness of C6: `arr.setValue(2, 100)` on the array `[10, -50, 0, 0, 0]`. -/
theorem read_after_write_witness :
    ((⟨[10, -50, 0, 0, 0], 5⟩ : Array).setValue 2 100).2.getValue 2 = .ok 100 :=
  (read_after_write ⟨[10, -50, 0, 0, 0], 5⟩ (by decide) 2 100 (by decide) (by decide)
    (by decide) (by decide)).2.2.1

/-- The checking loop of `operator=` stops at an element outside `[-100, 100]` as soon as
the source holds one. -/
theorem firstInvalid_of_bad (source : Array) (j : Nat) (x : Int)
    (hj : (j : Int) < source.size) (hx : source.data[j]? = some x)
    (hbad : x < -100 ∨ 100 < x) :
    ∃ y : Int, source.firstInvalid = some y ∧ (y < -100 ∨ 100 < y) ∧ y ∈ source.data := by
  have hmem : x ∈ (List.range source.size.toNat).map (fun i => source.data.getD i 0) := by
    refine List.mem_map.2 ⟨j, List.mem_range.2 (by omega), ?_⟩
    simp [List.getD_eq_getElem?_getD, hx]
  cases hf : source.firstInvalid with
  | none =>
    unfold Array.firstInvalid at hf
    have := List.find?_eq_none.1 hf x hmem
    have hxv : isValidValue x = false := (isValidValue_false_iff x).2 hbad
    simp [hxv] at this
  | some y =>
    unfold Array.firstInvalid at hf
    have hy : isValidValue y = false := by simpa using List.find?_some hf
    have hyb := (isValidValue_false_iff y).1 hy
    refine ⟨y, rfl, hyb, ?_⟩
    obtain ⟨i, _, hi⟩ := List.mem_map.1 (List.mem_of_find?_eq_some hf)
    rw [List.getD_eq_getElem?_getD] at hi
    cases hget : source.data[i]? with
    | none =>
      rw [hget] at hi
      simp at hi
      omega
    | some z =>
      rw [hget] at hi
      simp at hi
      subst hi
      exact List.mem_iff_getElem?.2 ⟨i, hget⟩

/-- C7. All-or-nothing copy assignment: when the source holds an element outside
`[-100, 100]` (here: `x`, at index `j < size`), `dest = source` throws `invalid_argument`,
naming an offending element of the source, and the destination (size and every element) is
exactly as before; the destination is also untouched by a self-assignment. -/
theorem assign_all_or_nothing (dest source : Array) (j : Nat) (x : Int)
    (hj : (j : Int) < source.size) (hx : source.data[j]? = some x)
    (hbad : x < -100 ∨ 100 < x) :
    (∃ y : Int, (y < -100 ∨ 100 < y) ∧ y ∈ source.data ∧
        (dest.assign source false).1 = .error (.invalid_argument (copyMessage y))) ∧
      (dest.assign source false).2 = dest ∧
      (dest.assign source false).2.size = dest.size ∧
      (dest.assign source false).2.data = dest.data ∧
      (dest.assign dest true).2 = dest := by
  obtain ⟨y, hf, hy, hmem⟩ := firstInvalid_of_bad source j x hj hx hbad
  have hres : dest.assign source false = (.error (.invalid_argument (copyMessage y)), dest) := by
    simp [Array.assign, hf]
  rw [hres]
  exact ⟨⟨y, hy, hmem, rfl⟩, rfl, rfl, rfl, by simp [Array.assign]⟩

/-- Witness of C7: assigning `[50, 101, -50]` to the array `[1, 2]`. -/
theorem assign_all_or_nothing_witness :
    ((⟨[1, 2], 2⟩ : Array).assign ⟨[50, 101, -50], 3⟩ false).2 = ⟨[1, 2], 2⟩ :=
  (assign_all_or_nothing ⟨[1, 2], 2⟩ ⟨[50, 101, -50], 3⟩ 1 101 (by decide) (by decide)
    (Or.inr (by decide))).2.1

end Pz6

namespace Main

/-! ## `main.cpp`: appending to the `DynArray` -/

theorem holds_ctor (c : Nat) (hc : 0 < c) (hlt : c < SIZE_MOD) : (DynArray.ctor c).Holds [] :=
  { size_eq := rfl
    cap_pos := hc
    cap_lt := hlt
    size_le := Nat.zero_le _
    buf := newBuffer_length 0 c
    elems := fun j hj => absurd hj (Nat.not_lt_zero j) }

/-- One `push_back` keeps the contents and adds the value at the end, as long as the
number of elements stays below `2 ^ 63`. -/
theorem holds_push_back (a : DynArray) (l : List Int) (v : Int) (h : a.Holds l)
    (hl : l.length < 2 ^ 63) : (a.push_back v).Holds (l ++ [v]) := by
  have hsz := h.size_eq
  have hbuf := h.buf
  have hcap := h.cap_lt
  have hle := h.size_le
  have hpos := h.cap_pos
  unfold SIZE_MOD at hcap
  by_cases hfull : a.size ≥ a.capacity
  · have hmod : (a.capacity * 2) % SIZE_MOD = a.capacity * 2 := by
      unfold SIZE_MOD
      exact Nat.mod_eq_of_lt (by omega)
    have hmod1 : (a.size + 1) % SIZE_MOD = a.size + 1 := by
      unfold SIZE_MOD
      exact Nat.mod_eq_of_lt (by omega)
    have hpb : a.push_back v =
        { data := (copyLoop 0 a.size a.data (newBuffer 0 (a.capacity * 2))).set a.size v
          size := a.size + 1
          capacity := a.capacity * 2 } := by
      simp [DynArray.push_back, hfull, hmod, hmod1]
    rw [hpb]
    refine ⟨by simp [hsz], by simp; omega, by simp [SIZE_MOD]; omega, by simp; omega,
      by simp [copyLoop_length, newBuffer_length], ?_⟩
    intro j hj
    simp only [List.getElem?_set, copyLoop_length, newBuffer_length]
    by_cases hjs : a.size = j
    · subst hjs
      have : a.size < a.capacity * 2 := by omega
      simp [this, hsz]
      omega
    · have hj2 : j < a.size := by simp at hj; omega
      have hj3 : j < l.length := by omega
      have hj4 : j < a.capacity * 2 := by omega
      have hj5 : j < a.data.length := by omega
      simp only [hjs, if_false]
      unfold copyLoop
      rw [setLoop_getElem?, newBuffer_length]
      simp only [hj2, hj4, and_self, if_true]
      rw [List.getElem?_append_left hj3, ← h.elems j hj2]
      simp [List.getD_eq_getElem?_getD, List.getElem?_eq_getElem hj5]
  · have hmod1 : (a.size + 1) % SIZE_MOD = a.size + 1 := by
      unfold SIZE_MOD
      exact Nat.mod_eq_of_lt (by omega)
    have hpb : a.push_back v =
        { data := a.data.set a.size v, size := a.size + 1, capacity := a.capacity } := by
      simp [DynArray.push_back, hfull, hmod1]
    rw [hpb]
    refine ⟨by simp [hsz], hpos, h.cap_lt, by simp; omega, by simp [hbuf], ?_⟩
    intro j hj
    simp only [List.getElem?_set]
    by_cases hjs : a.size = j
    · subst hjs
      have : a.size < a.data.length := by omega
      simp [this, hsz]
      omega
    · have hj2 : j < a.size := by simp at hj; omega
      have hj3 : j < l.length := by omega
      simp only [hjs, if_false]
      rw [List.getElem?_append_left hj3, h.elems j hj2]

theorem holds_pushAll (a : DynArray) (l vs : List Int) (h : a.Holds l)
    (hl : l.length + vs.length ≤ 2 ^ 63) : (a.pushAll vs).Holds (l ++ vs) := by
  induction vs generalizing a l with
  | nil => simpa [DynArray.pushAll] using h
  | cons v vs ih =>
    have hstep := holds_push_back a l v h (by simp at hl; omega)
    have := ih (a.push_back v) (l ++ [v]) hstep (by simp at hl ⊢; omega)
    simpa [DynArray.pushAll] using this

/-- C10. Append preserves length and order: `DynArray(c)` with `c > 0` is empty, and after
`push_back(v_0), ..., push_back(v_{N-1})` `getSize()` is `N` and `operator[](i)` is `v_i`
for every `i < N`, however often the buffer was reallocated.  (`c` is a `size_t`; `N` is at
most `2 ^ 63`, beyond which an `int` buffer does not fit a 64-bit address space.) -/
theorem push_back_appends (c : Nat) (vs : List Int) (hc : 0 < c) (hsz : c < 2 ^ 64)
    (hN : vs.length ≤ 2 ^ 63) :
    (DynArray.ctor c).getSize = 0 ∧
      ((DynArray.ctor c).pushAll vs).getSize = vs.length ∧
      ∀ i : Nat, i < vs.length → vs[i]? = some (((DynArray.ctor c).pushAll vs).index i) := by
  have h := holds_pushAll (DynArray.ctor c) [] vs (holds_ctor c hc hsz) (by simpa using hN)
  simp only [List.nil_append] at h
  refine ⟨rfl, h.size_eq, ?_⟩
  intro i hi
  have hi2 : i < ((DynArray.ctor c).pushAll vs).size := by rw [h.size_eq]; exact hi
  have he := h.elems i hi2
  have hlen : i < ((DynArray.ctor c).pushAll vs).data.length := by
    have := h.buf
    have := h.size_le
    omega
  rw [← he, DynArray.index, List.getD_eq_getElem?_getD, List.getElem?_eq_getElem hlen]
  rfl

/-- Witness of C10: capacity 2 and the five values 2, 4, 6, 8, 10 (two reallocations). -/
theorem push_back_appends_witness :
    ((DynArray.ctor 2).pushAll [2, 4, 6, 8, 10]).getSize = 5 ∧
      ((DynArray.ctor 2).pushAll [2, 4, 6, 8, 10]).index 4 = 10 :=
  have h := push_back_appends 2 [2, 4, 6, 8, 10] (by decide) (by decide) (by decide)
  ⟨h.2.1, by decide⟩

end Main

namespace Store

/-! ## Facts about the free store -/

variable {T : Type}

theorem length_write (s : Store T) (p i : Nat) (v : T) : (s.write p i v).length = s.length := by
  unfold write
  split <;> simp

theorem buffer_write (s : Store T) (p i : Nat) (v : T) (q : Nat) :
    (s.write p i v).buffer q = if q = p then (s.buffer p).set i v else s.buffer q := by
  unfold write
  split
  · rename_i b hb
    by_cases hq : q = p
    · subst hq
      have hlt : q < s.length := by
        rcases List.getElem?_eq_some.1 hb with ⟨h, _⟩
        exact h
      simp [buffer, List.getElem?_set, hlt, hb]
    · simp [buffer, List.getElem?_set, hq, Ne.symm hq]
  · rename_i hb
    by_cases hq : q = p
    · subst hq
      have : s.buffer q = [] := by
        unfold buffer
        split
        · rename_i b hb2
          exact absurd hb2 (hb b)
        · rfl
      simp [this]
    · simp [hq]

theorem buffer_append_left (s : Store T) (x : Option (List T)) (p : Nat) (hp : p < s.length) :
    buffer (s ++ [x]) p = s.buffer p := by
  simp [buffer, List.getElem?_append_left hp]

theorem buffer_append_self (s : Store T) (b : List T) :
    buffer (s ++ [some b]) s.length = b := by
  simp [buffer]

theorem buffer_delete (s : Store T) (p q : Nat) (h : q ≠ p) :
    (s.delete p).buffer q = s.buffer q := by
  simp [buffer, delete, List.getElem?_set, Ne.symm h]

theorem length_delete (s : Store T) (p : Nat) : (s.delete p).length = s.length := by
  simp [delete]

theorem buffer_copyCells_other (s : Store T) (dflt : T) (n dst src q : Nat) (hq : q ≠ dst) :
    (s.copyCells dflt n dst src).buffer q = s.buffer q := by
  unfold copyCells
  induction n with
  | zero => simp
  | succ k ih =>
    simp only [List.range_succ, List.foldl_append, List.foldl_cons, List.foldl_nil]
    rw [buffer_write, if_neg hq, ih]

theorem buffer_copyCells_dst (s : Store T) (dflt : T) (n dst src : Nat) (h : src ≠ dst) :
    (s.copyCells dflt n dst src).buffer dst = copyLoop dflt n (s.buffer src) (s.buffer dst) := by
  induction n with
  | zero => simp [copyCells, copyLoop]
  | succ k ih =>
    have hsrc := buffer_copyCells_other s dflt k dst src src h
    unfold copyCells at ih hsrc ⊢
    unfold copyLoop at ih ⊢
    simp only [List.range_succ, List.foldl_append, List.foldl_cons, List.foldl_nil]
    rw [buffer_write, if_pos rfl, ih, read, hsrc]

end Store

namespace Store

variable {T : Type}

/-- Allocating a buffer of the source's length and running the copy loop gives a deep
copy, and touches no other buffer. -/
theorem new_copyCells (s : Store T) (dflt : T) (n src : Nat) (hsrc : src < s.length)
    (hlen : (s.buffer src).length = n) :
    ((s.new dflt n).2.copyCells dflt n s.length src).buffer s.length = s.buffer src ∧
      ∀ q : Nat, q < s.length →
        ((s.new dflt n).2.copyCells dflt n s.length src).buffer q = s.buffer q := by
  have hne : src ≠ s.length := Nat.ne_of_lt hsrc
  constructor
  · rw [buffer_copyCells_dst _ dflt n s.length src hne]
    simp only [new]
    rw [buffer_append_left s _ src hsrc, buffer_append_self]
    exact copyLoop_eq dflt n _ _ hlen (newBuffer_length dflt n)
  · intro q hq
    rw [buffer_copyCells_other _ dflt n s.length src q (Nat.ne_of_lt hq)]
    simp only [new]
    exact buffer_append_left s _ q hq

theorem deepCopy_of_buffers (s1 s2 : Store T) (src cp : Nat) (hne : cp ≠ src)
    (hcp : s2.buffer cp = s1.buffer src) (hsrc : s2.buffer src = s1.buffer src) :
    DeepCopy s1 s2 src cp :=
  { fresh := hne
    same_length := by rw [hcp]
    same_elems := fun i _ => by rw [hcp]
    source_kept := hsrc
    write_apart := fun j v => by rw [buffer_write, if_neg (Ne.symm hne), hsrc] }

end Store

/-! ## Copies share no storage -/

theorem Pz6.firstInvalid_none_of_valid (a : Pz6.Array) (h : a.WF)
    (hv : ∀ x ∈ a.data, -100 ≤ x ∧ x ≤ 100) : a.firstInvalid = none := by
  rw [Pz6.firstInvalid_of_wf a h, List.find?_eq_none]
  intro x hx
  simp [(Pz6.isValidValue_iff x).2 (hv x hx)]

theorem Pz6.copyCtor_deep (s : Store Int) (src : Pz6.ArrayObj) (hlive : src.data < s.length)
    (hwf : (src.view s).WF) :
    ∃ (cp : Pz6.ArrayObj) (s2 : Store Int),
      Pz6.ArrayObj.copyCtor s src = (.ok cp, s2) ∧ cp.size = src.size ∧
        Store.DeepCopy s s2 src.data cp.data ∧
        Pz6.Array.copyCtor (src.view s) = .ok (cp.view s2) := by
  have hlen : (s.buffer src.data).length = src.size.toNat := Pz6.WF.length_eq hwf
  obtain ⟨h1, h2⟩ := Store.new_copyCells s 0 src.size.toNat src.data hlive hlen
  refine ⟨{ size := src.size, data := s.length }, _, rfl, rfl,
    Store.deepCopy_of_buffers s _ src.data s.length (Nat.ne_of_gt hlive) h1 (h2 _ hlive), ?_⟩
  have hcopy := copyLoop_eq 0 _ _ _ hlen (newBuffer_length (0 : Int) src.size.toNat)
  simp only [Store.new] at h1
  simp only [Pz6.Array.copyCtor, Pz6.ArrayObj.view] at hcopy ⊢
  rw [h1, hcopy]

theorem Pz6.assign_deep (s : Store Int) (dest src : Pz6.ArrayObj)
    (hlive : src.data < s.length) (hwf : (src.view s).WF)
    (hvalid : ∀ x ∈ s.buffer src.data, -100 ≤ x ∧ x ≤ 100) (hown : dest.data ≠ src.data) :
    ∃ (cp : Pz6.ArrayObj) (s2 : Store Int),
      Pz6.ArrayObj.assign s dest src false = (.ok (), cp, s2) ∧ cp.size = src.size ∧
        Store.DeepCopy s s2 src.data cp.data ∧
        (dest.view s).assign (src.view s) false = (.ok (), cp.view s2) := by
  have hlen : (s.buffer src.data).length = src.size.toNat := Pz6.WF.length_eq hwf
  have hfi : (src.view s).firstInvalid = none :=
    Pz6.firstInvalid_none_of_valid (src.view s) hwf hvalid
  have hlive1 : src.data < (s.delete dest.data).length := by
    rw [Store.length_delete]; exact hlive
  have hbuf1 : (s.delete dest.data).buffer src.data = s.buffer src.data :=
    Store.buffer_delete s dest.data src.data (Ne.symm hown)
  obtain ⟨h1, h2⟩ := Store.new_copyCells (s.delete dest.data) 0 src.size.toNat src.data hlive1
    (by rw [hbuf1]; exact hlen)
  rw [hbuf1] at h1
  have h3 := h2 _ hlive1
  rw [hbuf1] at h3
  refine ⟨{ size := src.size, data := (s.delete dest.data).length }, _, ?_, rfl,
    Store.deepCopy_of_buffers s _ src.data _ (Nat.ne_of_gt hlive1) h1 h3, ?_⟩
  · simp only [Pz6.ArrayObj.assign, hfi]
    rfl
  · have hcopy := copyLoop_eq 0 _ _ _ hlen (newBuffer_length (0 : Int) src.size.toNat)
    have hval : (dest.view s).assign (src.view s) false =
        (.ok (), { size := (src.view s).size,
                   data := copyLoop 0 (src.view s).size.toNat (src.view s).data
                             (newBuffer 0 (src.view s).size.toNat) }) := by
      simp [Pz6.Array.assign, hfi]
    rw [hval]
    simp only [Pz6.ArrayObj.view] at hcopy ⊢
    rw [h1, hcopy]

theorem Pz9.copyCtor_deep_generic {T : Type} (dflt : T) (s : Store T) (src : Pz9.ArrayObj)
    (hlive : src.data < s.length) (hwf : (s.buffer src.data).length = src.size) :
    ∃ (cp : Pz9.ArrayObj) (s2 : Store T),
      Pz9.ArrayObj.copyCtor dflt s src = (.ok cp, s2) ∧ cp.size = src.size ∧
        Store.DeepCopy s s2 src.data cp.data := by
  obtain ⟨h1, h2⟩ := Store.new_copyCells s dflt src.size src.data hlive hwf
  exact ⟨{ size := src.size, data := s.length }, _, rfl, rfl,
    Store.deepCopy_of_buffers s _ src.data s.length (Nat.ne_of_gt hlive) h1 (h2 _ hlive)⟩

theorem Pz9.assign_deep_generic {T : Type} (dflt : T) (s : Store T) (dest src : Pz9.ArrayObj)
    (hlive : src.data < s.length) (hwf : (s.buffer src.data).length = src.size)
    (hown : dest.data ≠ src.data) :
    ∃ (cp : Pz9.ArrayObj) (s2 : Store T),
      Pz9.ArrayObj.assign dflt s dest src false = (.ok (), cp, s2) ∧ cp.size = src.size ∧
        Store.DeepCopy s s2 src.data cp.data := by
  have hlive1 : src.data < (s.delete dest.data).length := by
    rw [Store.length_delete]; exact hlive
  have hbuf1 : (s.delete dest.data).buffer src.data = s.buffer src.data :=
    Store.buffer_delete s dest.data src.data (Ne.symm hown)
  obtain ⟨h1, h2⟩ := Store.new_copyCells (s.delete dest.data) dflt src.size src.data hlive1
    (by rw [hbuf1]; exact hwf)
  rw [hbuf1] at h1
  have h3 := h2 _ hlive1
  rw [hbuf1] at h3
  exact ⟨{ size := src.size, data := (s.delete dest.data).length }, _, rfl, rfl,
    Store.deepCopy_of_buffers s _ src.data _ (Nat.ne_of_gt hlive1) h1 h3⟩

/-- C9. Deep copy preserves contents, for the `Array` of `pz6.cpp` (source with all elements
in `[-100, 100]`) and the `Array<T>` of `pz9.cpp`: copy construction and copy assignment
(to another object) return normally with an object of the source's size whose buffer is
other storage holding the source's element at every index, the source's buffer is as it
was, and a later write through the copy leaves the source's buffer as it was. -/
theorem deep_copy_preserves_contents
    (s : Store Int) (dest src : Pz6.ArrayObj)
    (hlive : src.data < s.length) (hwf : (src.view s).WF)
    (hvalid : ∀ x ∈ s.buffer src.data, -100 ≤ x ∧ x ≤ 100) (hown : dest.data ≠ src.data)
    {T : Type} (dflt : T) (t : Store T) (dest9 src9 : Pz9.ArrayObj)
    (hlive9 : src9.data < t.length) (hwf9 : (t.buffer src9.data).length = src9.size)
    (hown9 : dest9.data ≠ src9.data) :
    (∃ (cp : Pz6.ArrayObj) (s2 : Store Int),
        Pz6.ArrayObj.copyCtor s src = (.ok cp, s2) ∧ cp.size = src.size ∧
          Store.DeepCopy s s2 src.data cp.data) ∧
      (∃ (cp : Pz6.ArrayObj) (s2 : Store Int),
        Pz6.ArrayObj.assign s dest src false = (.ok (), cp, s2) ∧ cp.size = src.size ∧
          Store.DeepCopy s s2 src.data cp.data) ∧
      (∃ (cp : Pz9.ArrayObj) (t2 : Store T),
        Pz9.ArrayObj.copyCtor dflt t src9 = (.ok cp, t2) ∧ cp.size = src9.size ∧
          Store.DeepCopy t t2 src9.data cp.data) ∧
      (∃ (cp : Pz9.ArrayObj) (t2 : Store T),
        Pz9.ArrayObj.assign dflt t dest9 src9 false = (.ok (), cp, t2) ∧ cp.size = src9.size ∧
          Store.DeepCopy t t2 src9.data cp.data) := by
  refine ⟨?_, ?_, Pz9.copyCtor_deep_generic dflt t src9 hlive9 hwf9,
    Pz9.assign_deep_generic dflt t dest9 src9 hlive9 hwf9 hown9⟩
  · obtain ⟨cp, s2, h1, h2, h3, _⟩ := Pz6.copyCtor_deep s src hlive hwf
    exact ⟨cp, s2, h1, h2, h3⟩
  · obtain ⟨cp, s2, h1, h2, h3, _⟩ := Pz6.assign_deep s dest src hlive hwf hvalid hown
    exact ⟨cp, s2, h1, h2, h3⟩

/-- Witness of C9: the `pz6` array `[10, -50, 100]` and the `pz9` array `["Hello", "World"]`,
each copied next to a second object. -/
theorem deep_copy_preserves_contents_witness :
    ∃ (cp : Pz6.ArrayObj) (s2 : Store Int),
      Pz6.ArrayObj.copyCtor [some [10, -50, 100], some [0, 0]] ⟨0, 3⟩ = (.ok cp, s2) ∧
        cp.size = (⟨0, 3⟩ : Pz6.ArrayObj).size ∧
        Store.DeepCopy [some [10, -50, 100], some [0, 0]] s2 (⟨0, 3⟩ : Pz6.ArrayObj).data
          cp.data :=
  (deep_copy_preserves_contents [some [10, -50, 100], some [0, 0]] ⟨1, 2⟩ ⟨0, 3⟩
    (by decide) (by decide) (by decide) (by decide)
    "" [some ["Hello", "World"], some ["x"]] ⟨1, 1⟩ ⟨0, 2⟩
    (by decide) (by decide) (by decide)).1

namespace Main

/-! ## `main.cpp`: how the capacity grows -/

theorem push_back_capacity (a : DynArray) (v : Int) :
    (a.push_back v).capacity =
      if a.size ≥ a.capacity then (a.capacity * 2) % SIZE_MOD else a.capacity := by
  unfold DynArray.push_back
  by_cases h : a.size ≥ a.capacity
  · simp [h]
  · simp [h]

/-- While fewer than `2 ^ 63` values are held, a full buffer doubles without wrapping. -/
theorem push_back_capacity_full (a : DynArray) (l : List Int) (v : Int) (h : a.Holds l)
    (hl : l.length < 2 ^ 63) (hfull : a.size = a.capacity) :
    (a.push_back v).capacity = 2 * a.capacity := by
  have hsz := h.size_eq
  rw [push_back_capacity, if_pos (by omega)]
  unfold SIZE_MOD
  rw [Nat.mod_eq_of_lt (by omega)]
  omega

theorem push_back_capacity_room (a : DynArray) (l : List Int) (v : Int) (h : a.Holds l)
    (hroom : a.size ≠ a.capacity) : (a.push_back v).capacity = a.capacity := by
  have hle := h.size_le
  rw [push_back_capacity, if_neg (by omega)]

theorem pushAll_capacity_pow (c : Nat) (a : DynArray) (l vs : List Int) (h : a.Holds l)
    (hl : l.length + vs.length ≤ 2 ^ 63) (hk : ∃ k : Nat, a.capacity = c * 2 ^ k) :
    ∃ k : Nat, (a.pushAll vs).capacity = c * 2 ^ k := by
  induction vs generalizing a l with
  | nil => simpa [DynArray.pushAll] using hk
  | cons v vs ih =>
    have hlt : l.length < 2 ^ 63 := by simp at hl; omega
    have hstep := holds_push_back a l v h hlt
    have hk2 : ∃ k : Nat, (a.push_back v).capacity = c * 2 ^ k := by
      obtain ⟨k, hk⟩ := hk
      by_cases hfull : a.size = a.capacity
      · refine ⟨k + 1, ?_⟩
        rw [push_back_capacity_full a l v h hlt hfull, hk, pow_succ]
        ring
      · exact ⟨k, by rw [push_back_capacity_room a l v h hfull, hk]⟩
    have := ih (a.push_back v) (l ++ [v]) hstep (by simp at hl ⊢; omega) hk2
    simpa [DynArray.pushAll] using this

/-- C11. Growth invariant: after `N` calls of `push_back` on `DynArray(c)`, `c > 0`, the
capacity is `c * 2 ^ k` for some `k` and is at least the size `N`; the next `push_back`
doubles the capacity exactly when the size equals the capacity and otherwise leaves it as
it is, so the capacity never shrinks, and the invariant holds again afterwards.  (`c` is a
`size_t`; fewer than `2 ^ 63` values are held before the call.) -/
theorem capacity_growth (c : Nat) (vs : List Int) (v : Int) (hc : 0 < c) (hsz : c < 2 ^ 64)
    (hN : vs.length < 2 ^ 63) :
    (∃ k : Nat, ((DynArray.ctor c).pushAll vs).capacity = c * 2 ^ k) ∧
      ((DynArray.ctor c).pushAll vs).getSize = vs.length ∧
      ((DynArray.ctor c).pushAll vs).capacity ≥ ((DynArray.ctor c).pushAll vs).getSize ∧
      (((DynArray.ctor c).pushAll vs).size = ((DynArray.ctor c).pushAll vs).capacity →
        (((DynArray.ctor c).pushAll vs).push_back v).capacity =
          2 * ((DynArray.ctor c).pushAll vs).capacity) ∧
      (((DynArray.ctor c).pushAll vs).size ≠ ((DynArray.ctor c).pushAll vs).capacity →
        (((DynArray.ctor c).pushAll vs).push_back v).capacity =
          ((DynArray.ctor c).pushAll vs).capacity) ∧
      ((DynArray.ctor c).pushAll vs).capacity ≤
        (((DynArray.ctor c).pushAll vs).push_back v).capacity ∧
      (∃ k : Nat, (((DynArray.ctor c).pushAll vs).push_back v).capacity = c * 2 ^ k) ∧
      (((DynArray.ctor c).pushAll vs).push_back v).capacity ≥
        (((DynArray.ctor c).pushAll vs).push_back v).getSize := by
  have h0 := holds_ctor c hc hsz
  have h := holds_pushAll (DynArray.ctor c) [] vs h0 (by simp; omega)
  simp only [List.nil_append] at h
  have hpow := pushAll_capacity_pow c (DynArray.ctor c) [] vs h0 (by simp; omega)
    ⟨0, by simp [DynArray.ctor]⟩
  have hnext := holds_push_back _ vs v h hN
  have hfull := push_back_capacity_full _ vs v h hN
  have hroom := push_back_capacity_room _ vs v h
  refine ⟨hpow, h.size_eq, h.size_le, hfull, hroom, ?_, ?_, hnext.size_le⟩
  · by_cases he : ((DynArray.ctor c).pushAll vs).size = ((DynArray.ctor c).pushAll vs).capacity
    · rw [hfull he]; omega
    · rw [hroom he]
  · obtain ⟨k, hk⟩ := hpow
    by_cases he : ((DynArray.ctor c).pushAll vs).size = ((DynArray.ctor c).pushAll vs).capacity
    · refine ⟨k + 1, ?_⟩
      rw [hfull he, hk, pow_succ]
      ring
    · exact ⟨k, by rw [hroom he, hk]⟩

/-- Witness of C11: capacity 2, the values 2, 4, 6, 8 held (capacity 4, full), then 10. -/
theorem capacity_growth_witness :
    ((DynArray.ctor 2).pushAll [2, 4, 6, 8]).capacity = 4 ∧
      (((DynArray.ctor 2).pushAll [2, 4, 6, 8]).push_back 10).capacity =
        2 * ((DynArray.ctor 2).pushAll [2, 4, 6, 8]).capacity :=
  have h := capacity_growth 2 [2, 4, 6, 8] 10 (by decide) (by decide) (by decide)
  ⟨by decide, h.2.2.2.1 (by decide)⟩

/-- C12 (the code departs from the claim). `DynArray(0)` is not rejected: the constructor,
which tests nothing, gives an empty buffer of capacity 0 without a cell; the next `push_back`
finds `size >= capacity`, doubles 0 to 0, allocates no cell again and stores at index 0,
past the end of the buffer, leaving the size 1 above the capacity 0. -/
theorem zero_capacity_not_rejected :
    DynArray.ctor 0 = { data := [], size := 0, capacity := 0 } ∧
      (DynArray.ctor 0).getSize = 0 ∧
      ((DynArray.ctor 0).push_back 7).capacity = 0 ∧
      ((DynArray.ctor 0).push_back 7).data.length = 0 ∧
      ((DynArray.ctor 0).push_back 7).getSize = 1 ∧
      ¬ ((DynArray.ctor 0).push_back 7).getSize ≤ ((DynArray.ctor 0).push_back 7).capacity := by
  refine ⟨by decide, by decide, by decide, by decide, by decide, by decide⟩

/-- On a buffer of capacity 0 the doubling gives capacity 0 again, and `push_back` writes
past the end of an empty buffer (here: the value is not stored). -/
theorem push_back_on_zero_capacity :
    (DynArray.ctor 0).push_back 7 = { data := [], size := 1, capacity := 0 } := by
  decide

end Main

namespace Pz9

/-! ## `pz9.cpp`: construction and checked access -/

variable {T D : Type}

theorem generic_ctor_pos (fresh : Nat → T) (dflt : T) (n : Nat) (h : 0 < n) :
    Array.ctor fresh dflt n = .ok { data := List.replicate n dflt, size := n } := by
  have hn : ¬ n ≤ 0 := by omega
  simp only [Array.ctor, hn, if_false]
  rw [fillLoop_eq n dflt _ (rawBuffer_length fresh n)]

theorem ctor_zero (fresh : Nat → T) (dflt : T) :
    Array.ctor fresh dflt 0 = .error (.invalid_argument sizeMessage) := by
  simp [Array.ctor]

theorem setWithCheck_eq (k : ElemKind T D) (a : Array T) (index : Nat) (value : T) :
    a.setWithCheck k index value =
      if index ≥ a.size then (.error (.out_of_range (setMessage index)), a)
      else (.ok (), { a with data := a.data.set index value }) := by
  cases k <;> rfl

end Pz9

theorem Pz6.ctor_pos (fresh : Nat → Int) (n : Int) (h : 0 < n) :
    Pz6.Array.ctor fresh n = .ok { data := List.replicate n.toNat 0, size := n } := by
  have hn : ¬ n ≤ 0 := by omega
  simp only [Pz6.Array.ctor, hn, if_false]
  rw [fillLoop_eq n.toNat (0 : Int) _ (rawBuffer_length fresh n.toNat)]

/-- C13. Fixed-size array construction, for `Array(int)` of `pz6.cpp` and
`Array<T>(size_t)` of `pz9.cpp`: the constructor throws `invalid_argument` exactly when the
requested size is `≤ 0`; for a positive size `n` it returns an array with `getSize() == n`,
a buffer of `n` cells, and the default value (0, resp. `T()`) at every index of `[0, n)`,
whatever the cells of the fresh buffer held (`fresh6`, `fresh`) before the loop wrote them. -/
theorem fixed_size_construction (fresh6 : Nat → Int) (n : Int) (m : Nat) {T : Type}
    (fresh : Nat → T) (dflt : T) :
    ((∃ what : String, Pz6.Array.ctor fresh6 n = .error (.invalid_argument what)) ↔ n ≤ 0) ∧
      (n ≤ 0 → Pz6.Array.ctor fresh6 n = .error (.invalid_argument Pz6.sizeMessage)) ∧
      (0 < n → ∃ a : Pz6.Array, Pz6.Array.ctor fresh6 n = .ok a ∧ a.getSize = n ∧
        (a.data.length : Int) = n ∧
        ∀ i : Int, 0 ≤ i → i < n → a.data[i.toNat]? = some 0 ∧ a.getValue i = .ok 0) ∧
      ((∃ what : String, Pz9.Array.ctor fresh dflt m = .error (.invalid_argument what)) ↔
        m ≤ 0) ∧
      (m ≤ 0 → Pz9.Array.ctor fresh dflt m = .error (.invalid_argument Pz9.sizeMessage)) ∧
      (0 < m → ∃ a : Pz9.Array T, Pz9.Array.ctor fresh dflt m = .ok a ∧ a.getSize = m ∧
        a.data.length = m ∧
        ∀ i : Nat, i < m → a.data[i]? = some dflt ∧ a.at dflt i = .ok dflt) ∧
      Pz6.Array.ctor (fun i => (i : Int) + 7) 3 = .ok ⟨[0, 0, 0], 3⟩ ∧
      Pz6.Array.ctor (fun i => (i : Int) + 7) (-5) =
        .error (.invalid_argument Pz6.sizeMessage) ∧
      Pz9.Array.ctor (fun _ => "junk") "" 2 = .ok ⟨["", ""], 2⟩ := by
  have h6 : 0 < n → ∃ a : Pz6.Array, Pz6.Array.ctor fresh6 n = .ok a ∧ a.getSize = n ∧
      (a.data.length : Int) = n ∧
      ∀ i : Int, 0 ≤ i → i < n → a.data[i.toNat]? = some 0 ∧ a.getValue i = .ok 0 := by
    intro hn
    refine ⟨_, Pz6.ctor_pos fresh6 n hn, rfl, by simp; omega, ?_⟩
    intro i h0 h1
    have hlt : i.toNat < n.toNat := by omega
    have hv : Pz6.Array.isValidIndex { data := List.replicate n.toNat 0, size := n } i = true :=
      (Pz6.isValidIndex_iff _ i).2 ⟨h0, h1⟩
    constructor
    · simp [List.getElem?_replicate, hlt]
    · simp [Pz6.Array.getValue, hv, List.getD_eq_getElem?_getD, List.getElem?_replicate, hlt]
  have h9 : 0 < m → ∃ a : Pz9.Array T, Pz9.Array.ctor fresh dflt m = .ok a ∧ a.getSize = m ∧
      a.data.length = m ∧
      ∀ i : Nat, i < m → a.data[i]? = some dflt ∧ a.at dflt i = .ok dflt := by
    intro hm
    refine ⟨_, Pz9.generic_ctor_pos fresh dflt m hm, rfl, by simp, ?_⟩
    intro i hi
    constructor
    · simp [List.getElem?_replicate, hi]
    · have : ¬ i ≥ m := by omega
      simp [Pz9.Array.at, this, List.getD_eq_getElem?_getD, List.getElem?_replicate, hi]
  have e6 : n ≤ 0 → Pz6.Array.ctor fresh6 n = .error (.invalid_argument Pz6.sizeMessage) := by
    intro hn
    simp [Pz6.Array.ctor, hn]
  have e9 : m ≤ 0 →
      Pz9.Array.ctor fresh dflt m = .error (.invalid_argument Pz9.sizeMessage) := by
    intro hm
    have : m = 0 := by omega
    subst this
    exact Pz9.ctor_zero fresh dflt
  refine ⟨⟨?_, fun hn => ⟨_, e6 hn⟩⟩, e6, h6, ⟨?_, fun hm => ⟨_, e9 hm⟩⟩, e9, h9,
    by decide, by decide, by decide⟩
  · rintro ⟨what, hw⟩
    by_contra hn
    obtain ⟨a, ha, _⟩ := h6 (by omega)
    rw [ha] at hw
    cases hw
  · rintro ⟨what, hw⟩
    by_contra hm
    obtain ⟨a, ha, _⟩ := h9 (by omega)
    rw [ha] at hw
    cases hw

namespace Pz6

/-- C14. The member `fill`: `fill(v)` throws `invalid_argument` exactly when `v < -100` or
`v > 100`, and then leaves the array as it was; when it returns, the size is the one it was
and every element at an index of `[0, size)` is `v`. -/
theorem fill_sets_every_element (a : Array) (hwf : a.WF) (v : Int) :
    ((∃ what : String, (a.fill v).1 = .error (.invalid_argument what)) ↔
        (v < -100 ∨ v > 100)) ∧
      ((v < -100 ∨ v > 100) → a.fill v = (.error (.invalid_argument (valueMessage v)), a)) ∧
      (¬ (v < -100 ∨ v > 100) → (a.fill v).1 = .ok ()) ∧
      ((a.fill v).1 = .ok () →
        (a.fill v).2.size = a.size ∧ ((a.fill v).2.data.length : Int) = a.size ∧
        ∀ i : Int, 0 ≤ i → i < a.size →
          (a.fill v).2.data[i.toNat]? = some v ∧ (a.fill v).2.getValue i = .ok v) := by
  have hlen := WF.length_eq hwf
  by_cases hv : isValidValue v = true
  · have hin := (isValidValue_iff v).1 hv
    have hno : ¬ (v < -100 ∨ v > 100) := by omega
    have hres : a.fill v = (.ok (), { a with data := List.replicate a.size.toNat v }) := by
      simp only [Array.fill, hv, Bool.not_true, Bool.false_eq_true, if_false]
      rw [fillLoop_eq _ v a.data hlen]
    rw [hres]
    refine ⟨?_, fun h => absurd h hno, fun _ => rfl, fun _ => ⟨rfl, ?_, ?_⟩⟩
    · simp [hno]
    · simp only [List.length_replicate]
      unfold Array.WF at hwf
      omega
    · intro i h0 h1
      have hlt : i.toNat < a.size.toNat := by omega
      have hvi : Array.isValidIndex { a with data := List.replicate a.size.toNat v } i = true :=
        (isValidIndex_iff _ i).2 ⟨h0, h1⟩
      constructor
      · simp [List.getElem?_replicate, hlt]
      · simp [Array.getValue, hvi, List.getD_eq_getElem?_getD, List.getElem?_replicate, hlt]
  · have hout : v < -100 ∨ v > 100 := by
      have := (isValidValue_false_iff v).1 (by simpa using hv)
      omega
    have hres : a.fill v = (.error (.invalid_argument (valueMessage v)), a) := by
      simp [Array.fill, hv]
    rw [hres]
    refine ⟨?_, fun _ => rfl, fun h => absurd hout h, fun h => by cases h⟩
    simp [hout]

/-- Witness of C14: `fill(7)` on the array `[10, -50, 100]`. -/
theorem fill_sets_every_element_witness :
    ((⟨[10, -50, 100], 3⟩ : Array).fill 7).1 = .ok () :=
  (fill_sets_every_element ⟨[10, -50, 100], 3⟩ (by decide) 7).2.2.1 (by decide)

end Pz6

namespace Pz9

/-! ## `pz9.cpp`: the distance -/

variable {T D : Type}

theorem euclideanDistance_arithmetic (fl : DoubleOps D) (ops : Arithmetic T D) (dflt : T)
    (a b : Array T) :
    Array.euclideanDistance fl (.arithmetic ops) dflt a b =
      if a.size ≠ b.size then .error (.invalid_argument (mismatchMessage a.size b.size))
      else .ok (fl.sqrt (distanceLoop fl ops.toDouble dflt a.size a.data b.data)) :=
  rfl

theorem euclideanDistance_same_size (fl : DoubleOps D) (ops : Arithmetic T D) (dflt : T)
    (a b : Array T) (h : a.size = b.size) :
    Array.euclideanDistance fl (.arithmetic ops) dflt a b =
      .ok (fl.sqrt (distanceLoop fl ops.toDouble dflt a.size a.data b.data)) := by
  rw [euclideanDistance_arithmetic, if_neg (fun hne => hne h)]

/-- In a ring the summing loop is the sum of the squares. -/
theorem distanceLoop_ofRing (R : Type) [Ring R] (sqrt : R → R) (toDouble : T → R) (dflt : T)
    (n : Nat) (d1 d2 : List T) :
    distanceLoop (DoubleOps.ofRing R sqrt) toDouble dflt n d1 d2 =
      Finset.sum (Finset.range n)
        (fun i => (toDouble (d1.getD i dflt) - toDouble (d2.getD i dflt)) ^ 2) := by
  unfold distanceLoop
  induction n with
  | zero => simp [DoubleOps.ofRing]
  | succ k ih =>
    rw [List.range_succ, List.foldl_append, ih, Finset.sum_range_succ]
    simp [DoubleOps.ofRing, pow_two]

/-- C15. Length precondition of the distance: on an arithmetic element type
`euclideanDistance(a, b)` throws `invalid_argument` exactly when
`a.getSize() != b.getSize()`; arrays of equal length always give a value, arrays of
lengths 3 and 4 throw. -/
theorem distance_size_check (fl : DoubleOps D) (ops : Arithmetic T D) (dflt : T)
    (a b : Array T) :
    ((∃ what : String, Array.euclideanDistance fl (.arithmetic ops) dflt a b =
        .error (.invalid_argument what)) ↔ a.getSize ≠ b.getSize) ∧
      (a.getSize ≠ b.getSize → Array.euclideanDistance fl (.arithmetic ops) dflt a b =
        .error (.invalid_argument (mismatchMessage a.getSize b.getSize))) ∧
      (a.getSize = b.getSize →
        ∃ d : D, Array.euclideanDistance fl (.arithmetic ops) dflt a b = .ok d) ∧
      Array.euclideanDistance fl (intKind fl) 0 ⟨[0, 0, 0], 3⟩ ⟨[0, 0, 0, 0], 4⟩ =
        .error (.invalid_argument (mismatchMessage 3 4)) := by
  rw [euclideanDistance_arithmetic]
  refine ⟨?_, ?_, ?_, rfl⟩
  · by_cases h : a.size = b.size
    · simp [Array.getSize, h]
    · simp [Array.getSize, h]
  · intro h
    simp only [Array.getSize] at h ⊢
    simp [h]
  · intro h
    exact ⟨_, if_neg (fun hne => hne h)⟩

/-- C16. Value of the distance on `int` arrays of equal length: the call returns the square
root of the sum, accumulated from index 0 upwards, of the squares of the differences
`double(a[i]) - double(b[i])`, the elements being converted before they are subtracted; in
arithmetic without rounding that is the square root of the sum of `(a[i] - b[i])²` with the
exact integer differences, and `sqrt 14` for `[1, 2, 3]` and `[0, 0, 0]`. -/
theorem euclideanDistance_value (a b : Array Int) (h : a.getSize = b.getSize) :
    (∀ (F : Type) (fl : DoubleOps F),
        Array.euclideanDistance fl (intKind fl) 0 a b =
          .ok (fl.sqrt ((List.range a.getSize).foldl
            (fun sum i =>
              fl.add sum
                (fl.mul (fl.sub (fl.ofInt (a.index 0 i)) (fl.ofInt (b.index 0 i)))
                  (fl.sub (fl.ofInt (a.index 0 i)) (fl.ofInt (b.index 0 i)))))
            fl.zero))) ∧
      Array.euclideanDistance (DoubleOps.ofRing ℝ Real.sqrt)
          (intKind (DoubleOps.ofRing ℝ Real.sqrt)) 0 a b =
        .ok (Real.sqrt (Finset.sum (Finset.range a.getSize)
          (fun i => (((a.index 0 i - b.index 0 i : Int) : ℝ)) ^ 2))) ∧
      Array.euclideanDistance (DoubleOps.ofRing ℝ Real.sqrt)
          (intKind (DoubleOps.ofRing ℝ Real.sqrt)) 0 ⟨[1, 2, 3], 3⟩ ⟨[0, 0, 0], 3⟩ =
        .ok (Real.sqrt 14) := by
  have hs : a.size = b.size := h
  refine ⟨?_, ?_, ?_⟩
  · intro F fl
    unfold intKind
    rw [euclideanDistance_same_size fl _ 0 a b hs]
    rfl
  · unfold intKind
    rw [euclideanDistance_same_size _ _ 0 a b hs, distanceLoop_ofRing]
    simp [DoubleOps.ofRing, Array.getSize, Array.index]
  · unfold intKind
    rw [euclideanDistance_same_size _ _ 0 ⟨[1, 2, 3], 3⟩ ⟨[0, 0, 0], 3⟩ rfl, distanceLoop_ofRing]
    simp only [DoubleOps.ofRing, Finset.sum_range_succ, Finset.sum_range_zero]
    norm_num

/-- Witness of C16: the arrays `[0, 10, 20]` and `[0, 5, 10]`. -/
theorem euclideanDistance_value_witness :
    Array.euclideanDistance (DoubleOps.ofRing ℝ Real.sqrt)
        (intKind (DoubleOps.ofRing ℝ Real.sqrt)) 0 ⟨[0, 10, 20], 3⟩ ⟨[0, 5, 10], 3⟩ =
      .ok (Real.sqrt (Finset.sum (Finset.range (⟨[0, 10, 20], 3⟩ : Array Int).getSize)
        (fun i => (((Array.index 0 ⟨[0, 10, 20], 3⟩ i -
          Array.index 0 ⟨[0, 5, 10], 3⟩ i : Int) : ℝ)) ^ 2))) :=
  (euclideanDistance_value ⟨[0, 10, 20], 3⟩ ⟨[0, 5, 10], 3⟩ rfl).2.1

/-- C17. Distance on a non-arithmetic element type: whatever the two arrays and their
lengths, `euclideanDistance` throws `bad_typeid`; it returns no value and throws no
`invalid_argument`. -/
theorem distance_non_arithmetic (fl : DoubleOps D) (dflt : T) (a b : Array T) :
    Array.euclideanDistance fl (.nonArithmetic : ElemKind T D) dflt a b = .error .bad_typeid ∧
      (¬ ∃ d : D, Array.euclideanDistance fl (.nonArithmetic : ElemKind T D) dflt a b = .ok d) ∧
      (¬ ∃ what : String, Array.euclideanDistance fl (.nonArithmetic : ElemKind T D) dflt a b =
        .error (.invalid_argument what)) ∧
      (∀ fu : DoubleOps Unit,
        Array.euclideanDistance fu stringKind "" ⟨["Hello", "World", "!"], 3⟩
          ⟨["Hi", "There", "!"], 3⟩ = .error .bad_typeid ∧
        Array.euclideanDistance fu stringKind "" ⟨["Hello", "World", "!"], 3⟩
          ⟨["Hi", "There"], 2⟩ = .error .bad_typeid) := by
  refine ⟨rfl, ?_, ?_, fun _ => ⟨rfl, rfl⟩⟩
  · rintro ⟨d, hd⟩
    cases hd
  · rintro ⟨w, hw⟩
    cases hw

end Pz9

namespace Pz9

/-! ## `pz9.cpp`: the checked setters -/

variable {T D : Type}

theorem setWithRangeCheck_arithmetic_eq (ops : Arithmetic T D) (arr : Array T) (index : Nat)
    (value minVal maxVal : T) :
    ArrayRangeChecker.setWithRangeCheck (.arithmetic ops) arr index value minVal maxVal =
      if (ops.lt value minVal || ops.lt maxVal value) = true then
        (.error (.invalid_argument
          (rangeMessage (ops.toString value) (ops.toString minVal) (ops.toString maxVal))), arr)
      else arr.setWithCheck (.arithmetic ops) index value :=
  rfl

/-- C18. Range-checked set on an arithmetic element type: `setWithRangeCheck` throws
`invalid_argument`, leaving the array as it was, if `value < minVal` or `value > maxVal`;
otherwise its outcome and resulting array are those of `arr.setWithCheck(index, value)`.
On the `int` array `[0, 10, 20, 30, 40]`, (index 0, value 50, range [0, 100]) stores 50 and
(index 1, value 150, range [0, 100]) throws. -/
theorem setWithRangeCheck_arithmetic (ops : Arithmetic T D) (arr : Array T) (index : Nat)
    (value minVal maxVal : T) :
    ((ops.lt value minVal = true ∨ ops.lt maxVal value = true) →
        ArrayRangeChecker.setWithRangeCheck (.arithmetic ops) arr index value minVal maxVal =
          (.error (.invalid_argument
            (rangeMessage (ops.toString value) (ops.toString minVal) (ops.toString maxVal))),
            arr)) ∧
      (¬ (ops.lt value minVal = true ∨ ops.lt maxVal value = true) →
        ArrayRangeChecker.setWithRangeCheck (.arithmetic ops) arr index value minVal maxVal =
          arr.setWithCheck (.arithmetic ops) index value) ∧
      (∀ (fl : DoubleOps D) (ia : Array Int) (i : Nat) (v lo hi : Int),
        ((v < lo ∨ v > hi) →
          ArrayRangeChecker.setWithRangeCheck (intKind fl) ia i v lo hi =
            (.error (.invalid_argument (rangeMessage (toString v) (toString lo) (toString hi))),
              ia)) ∧
        (¬ (v < lo ∨ v > hi) →
          ArrayRangeChecker.setWithRangeCheck (intKind fl) ia i v lo hi =
            ia.setWithCheck (intKind fl) i v)) ∧
      (∀ fl : DoubleOps D,
        ArrayRangeChecker.setWithRangeCheck (intKind fl) ⟨[0, 10, 20, 30, 40], 5⟩ 0 50 0 100 =
          (.ok (), ⟨[50, 10, 20, 30, 40], 5⟩) ∧
        ArrayRangeChecker.setWithRangeCheck (intKind fl) ⟨[0, 10, 20, 30, 40], 5⟩ 1 150 0 100 =
          (.error (.invalid_argument (rangeMessage "150" "0" "100")),
            ⟨[0, 10, 20, 30, 40], 5⟩)) := by
  refine ⟨?_, ?_, ?_, fun fl => ⟨rfl, rfl⟩⟩
  · intro h
    rw [setWithRangeCheck_arithmetic_eq, if_pos (by simpa using h)]
  · intro h
    rw [setWithRangeCheck_arithmetic_eq, if_neg (by simpa using h)]
  · intro fl ia i v lo hi
    unfold intKind
    constructor
    · intro h
      rw [setWithRangeCheck_arithmetic_eq, if_pos (by simpa using h)]
    · intro h
      rw [setWithRangeCheck_arithmetic_eq, if_neg (by simpa using h)]

/-- C19. Range-checked set on a non-arithmetic element type ignores the bounds: for an
index below the size, `setWithRangeCheck` returns normally, with exactly the array that
`arr.setWithCheck(index, value)` gives (the value stored at the index), whatever `minVal`
and `maxVal` are. -/
theorem setWithRangeCheck_non_arithmetic (arr : Array T) (index : Nat)
    (hidx : index < arr.getSize) (value minVal maxVal minVal2 maxVal2 : T) :
    ArrayRangeChecker.setWithRangeCheck (.nonArithmetic : ElemKind T D) arr index value
        minVal maxVal =
      arr.setWithCheck (.nonArithmetic : ElemKind T D) index value ∧
      ArrayRangeChecker.setWithRangeCheck (.nonArithmetic : ElemKind T D) arr index value
          minVal maxVal =
        (.ok (), { arr with data := arr.data.set index value }) ∧
      ArrayRangeChecker.setWithRangeCheck (.nonArithmetic : ElemKind T D) arr index value
          minVal maxVal =
        ArrayRangeChecker.setWithRangeCheck (.nonArithmetic : ElemKind T D) arr index value
          minVal2 maxVal2 := by
  have h : ¬ index ≥ arr.size := by
    unfold Array.getSize at hidx
    omega
  refine ⟨rfl, ?_, rfl⟩
  show arr.setWithCheck (.nonArithmetic : ElemKind T D) index value = _
  rw [setWithCheck_eq, if_neg h]

/-- Witness of C19: storing "zebra" at index 1 of `["Hello", "World", "!"]` with the bounds
"a" and "b". -/
theorem setWithRangeCheck_non_arithmetic_witness :
    ArrayRangeChecker.setWithRangeCheck stringKind ⟨["Hello", "World", "!"], 3⟩ 1 "zebra"
        "a" "b" =
      (.ok (), ⟨["Hello", "zebra", "!"], 3⟩) :=
  (setWithRangeCheck_non_arithmetic ⟨["Hello", "World", "!"], 3⟩ 1 (by decide) "zebra"
    "a" "b" "a" "b").2.1

/-- C20. Checked access on the generic array: `at(index)` and `setWithCheck(index, value)`
throw `out_of_range` exactly when `index >= size`; for `index < size`, `at` returns the
element stored at the index, and `setWithCheck` returns normally with the value at the
index, the size and every other element as they were; a throwing `setWithCheck` leaves the
array as it was. -/
theorem checked_access (k : ElemKind T D) (dflt : T) (a : Array T) (hwf : a.WF)
    (index : Nat) (value : T) :
    ((∃ what : String, a.at dflt index = .error (.out_of_range what)) ↔ index ≥ a.getSize) ∧
      ((∃ what : String, (a.setWithCheck k index value).1 = .error (.out_of_range what)) ↔
        index ≥ a.getSize) ∧
      (index < a.getSize → ∃ x : T, a.data[index]? = some x ∧ a.at dflt index = .ok x) ∧
      (index < a.getSize →
        (a.setWithCheck k index value).1 = .ok () ∧
        (a.setWithCheck k index value).2.data[index]? = some value ∧
        (a.setWithCheck k index value).2.at dflt index = .ok value ∧
        (a.setWithCheck k index value).2.getSize = a.getSize ∧
        (a.setWithCheck k index value).2.data.length = a.data.length ∧
        ∀ j : Nat, j ≠ index → (a.setWithCheck k index value).2.data[j]? = a.data[j]?) ∧
      (index ≥ a.getSize →
        a.setWithCheck k index value = (.error (.out_of_range (setMessage index)), a)) := by
  unfold Array.WF at hwf
  simp only [Array.getSize]
  rw [setWithCheck_eq]
  by_cases hi : index ≥ a.size
  · have hno : ¬ index < a.size := by omega
    refine ⟨?_, ?_, fun h => absurd h hno, fun h => absurd h hno, fun _ => by simp [hi]⟩
    · simp [Array.at, hi]
    · simp [hi]
  · have hlt : index < a.size := by omega
    have hlen : index < a.data.length := by omega
    refine ⟨?_, ?_, fun _ => ⟨a.data[index], List.getElem?_eq_getElem hlen, ?_⟩,
      fun _ => ?_, fun h => absurd h hi⟩
    · simp [Array.at, hi]
    · simp [hi]
    · simp [Array.at, hi, List.getD_eq_getElem?_getD, List.getElem?_eq_getElem hlen]
    · rw [if_neg hi]
      refine ⟨rfl, ?_, ?_, rfl, by simp, ?_⟩
      · simp [List.getElem?_set, hlen]
      · simp [Array.at, hi, List.getD_eq_getElem?_getD, List.getElem?_set, hlen]
      · intro j hj
        simp [List.getElem?_set, Ne.symm hj]

/-- Witness of C20: `setWithCheck(1, 7)` on the `int` array `[0, 10, 20]`. -/
theorem checked_access_witness :
    ((⟨[0, 10, 20], 3⟩ : Array Int).setWithCheck
        (intKind (DoubleOps.ofRing Int id)) 1 7).2.at 0 1 = .ok 7 :=
  ((checked_access (intKind (DoubleOps.ofRing Int id)) 0 ⟨[0, 10, 20], 3⟩ (by decide) 1 7
    ).2.2.2.1 (by decide)).2.2.1

end Pz9

/-! ## The texts of the `out_of_range` exceptions -/

theorem contains_of_data (msg part : String) (s t : List Char)
    (h : s ++ part.data ++ t = msg.data) : Contains msg part :=
  ⟨s, t, h⟩

/-- The text of the `pz6.cpp` exception names the index and the range `[0, size - 1]`. -/
theorem Pz6.indexMessage_contains (index size : Int) :
    Contains (Pz6.indexMessage index size) (toString index) ∧
      Contains (Pz6.indexMessage index size) (rangeText (toString (size - 1))) := by
  constructor
  · refine contains_of_data _ _ "Индекс ".data
      (" выходит за границы массива [0, " ++ toString (size - 1) ++ "]").data ?_
    simp [Pz6.indexMessage, String.data_append]
  · refine contains_of_data _ _
      ("Индекс " ++ toString index ++ " выходит за границы массива ").data [] ?_
    have hsplit : (" выходит за границы массива [0, " : String).data =
        (" выходит за границы массива " : String).data ++ ("[0, " : String).data := by
      decide
    simp only [Pz6.indexMessage, rangeText, String.data_append, hsplit, List.append_nil,
      List.append_assoc]
    rfl

/-- The text of the exception of `at` in `pz9.cpp` names the index and, for a size that is
not 0, the range `[0, size - 1]`. -/
theorem Pz9.atMessage_contains (index size : Nat) (h0 : 0 < size) (hsz : size < 2 ^ 64) :
    Contains (Pz9.atMessage index size) (toString index) ∧
      Contains (Pz9.atMessage index size) (rangeText (toString (size - 1))) := by
  have hlast : (size + Pz9.SIZE_MOD - 1) % Pz9.SIZE_MOD = size - 1 := by
    unfold Pz9.SIZE_MOD
    omega
  constructor
  · refine contains_of_data _ _ "Индекс ".data
      (" выходит за границы массива [0, " ++ toString (size - 1) ++ "]").data ?_
    simp [Pz9.atMessage, hlast, String.data_append]
  · refine contains_of_data _ _
      ("Индекс " ++ toString index ++ " выходит за границы массива ").data [] ?_
    have hsplit : (" выходит за границы массива [0, " : String).data =
        (" выходит за границы массива " : String).data ++ ("[0, " : String).data := by
      decide
    simp only [Pz9.atMessage, hlast, rangeText, String.data_append, hsplit, List.append_nil,
      List.append_assoc]
    rfl

/-- The five access paths that report the range: the four of `pz6.cpp` and `at` of
`pz9.cpp` throw, for an index outside `[0, size - 1]`, a text that holds the index and
`[0, size - 1]`, the size being the one at the call. -/
theorem index_messages_with_range (a : Pz6.Array) (index value : Int)
    (hout : index < 0 ∨ index ≥ a.size) {T : Type} (dflt : T) (b : Pz9.Array T) (j : Nat)
    (hj : j ≥ b.size) (h0 : 0 < b.size) (hsz : b.size < 2 ^ 64) :
    a.constIndex index = .error (.out_of_range (Pz6.indexMessage index a.size)) ∧
      a.index index = .error (.out_of_range (Pz6.indexMessage index a.size)) ∧
      a.getValue index = .error (.out_of_range (Pz6.indexMessage index a.size)) ∧
      (a.setValue index value).1 = .error (.out_of_range (Pz6.indexMessage index a.size)) ∧
      Contains (Pz6.indexMessage index a.size) (toString index) ∧
      Contains (Pz6.indexMessage index a.size) (rangeText (toString (a.size - 1))) ∧
      b.at dflt j = .error (.out_of_range (Pz9.atMessage j b.size)) ∧
      Contains (Pz9.atMessage j b.size) (toString j) ∧
      Contains (Pz9.atMessage j b.size) (rangeText (toString (b.size - 1))) := by
  have hi : a.isValidIndex index = false :=
    (Pz6.isValidIndex_false_iff a index).2 (by omega)
  obtain ⟨c1, c2⟩ := Pz6.indexMessage_contains index a.size
  obtain ⟨c3, c4⟩ := Pz9.atMessage_contains j b.size h0 hsz
  refine ⟨?_, ?_, ?_, ?_, c1, c2, ?_, c3, c4⟩
  · simp [Pz6.Array.constIndex, hi]
  · simp [Pz6.Array.index, hi]
  · simp [Pz6.Array.getValue, hi]
  · simp [Pz6.Array.setValue, hi]
  · simp [Pz9.Array.at, hj]

/-- C21 (the code departs from the claim). The text thrown by `setWithCheck` of `pz9.cpp`
names the index but not the range: on an `int` array of 3 elements, `setWithCheck(5, 7)`
throws a text without `[0, 2]`, where `at(5)` on the same array throws one with it; the
text of `setWithCheck` is the same for arrays of any two sizes. -/
theorem setWithCheck_message_without_range :
    ((⟨[0, 0, 0], 3⟩ : Pz9.Array Int).setWithCheck
        (Pz9.intKind (Pz9.DoubleOps.ofRing Int Int.sqrt)) 5 7).1 =
      .error (.out_of_range "Индекс 5 выходит за границы массива") ∧
      Contains "Индекс 5 выходит за границы массива" "5" ∧
      ¬ Contains "Индекс 5 выходит за границы массива" (rangeText "2") ∧
      (⟨[0, 0, 0], 3⟩ : Pz9.Array Int).at 0 5 =
        .error (.out_of_range "Индекс 5 выходит за границы массива [0, 2]") ∧
      Contains "Индекс 5 выходит за границы массива [0, 2]" (rangeText "2") ∧
      ((⟨[0, 0, 0], 3⟩ : Pz9.Array Int).setWithCheck
          (Pz9.intKind (Pz9.DoubleOps.ofRing Int Int.sqrt)) 5 7).1 =
        ((⟨[0, 0, 0, 0], 4⟩ : Pz9.Array Int).setWithCheck
          (Pz9.intKind (Pz9.DoubleOps.ofRing Int Int.sqrt)) 5 7).1 := by
  refine ⟨by decide, by decide, by decide, by decide, by decide, by decide⟩

/-- C22. Error precedence of the two range-checked setters: in `pz9.cpp`, with the value
outside `[minVal, maxVal]` and `index >= size`, `setWithRangeCheck` throws `invalid_argument`
(where `setWithCheck` alone throws `out_of_range`); in `pz6.cpp`, with the index outside
`[0, size - 1]` and the value outside `[-100, 100]`, `setValue` throws `out_of_range`.  In
both cases the array is as it was. -/
theorem error_precedence {T D : Type} (ops : Pz9.Arithmetic T D) (arr : Pz9.Array T)
    (index : Nat) (value minVal maxVal : T)
    (hval : ops.lt value minVal = true ∨ ops.lt maxVal value = true)
    (hidx : index ≥ arr.getSize)
    (a : Pz6.Array) (i v : Int) (hi : i < 0 ∨ i ≥ a.getSize) (hv : v < -100 ∨ v > 100) :
    Pz9.ArrayRangeChecker.setWithRangeCheck (.arithmetic ops) arr index value minVal maxVal =
        (.error (.invalid_argument (Pz9.rangeMessage (ops.toString value) (ops.toString minVal)
          (ops.toString maxVal))), arr) ∧
      arr.setWithCheck (.arithmetic ops) index value =
        (.error (.out_of_range (Pz9.setMessage index)), arr) ∧
      a.setValue i v = (.error (.out_of_range (Pz6.indexMessage i a.size)), a) ∧
      (∀ (fl : Pz9.DoubleOps D) (ia : Pz9.Array Int) (k : Nat) (w lo hi : Int),
        (w < lo ∨ w > hi) → k ≥ ia.getSize →
          Pz9.ArrayRangeChecker.setWithRangeCheck (Pz9.intKind fl) ia k w lo hi =
            (.error (.invalid_argument
              (Pz9.rangeMessage (toString w) (toString lo) (toString hi))), ia)) := by
  have hbad : a.isValidIndex i = false :=
    (Pz6.isValidIndex_false_iff a i).2 (by unfold Pz6.Array.getSize at hi; omega)
  refine ⟨?_, ?_, ?_, ?_⟩
  · rw [Pz9.setWithRangeCheck_arithmetic_eq, if_pos (by simpa using hval)]
  · rw [Pz9.setWithCheck_eq, if_pos (show index ≥ arr.size from hidx)]
  · simp [Pz6.Array.setValue, hbad]
  · intro fl ia k w lo hi hw _
    unfold Pz9.intKind
    rw [Pz9.setWithRangeCheck_arithmetic_eq, if_pos (by simpa using hw)]

/-- Witness of C22: value 150 at index 7 of a 5-element `int` array of `pz9.cpp` with the
range `[0, 100]`, and `setValue(10, 150)` on a 5-element array of `pz6.cpp`. -/
theorem error_precedence_witness :
    Pz9.ArrayRangeChecker.setWithRangeCheck
        (Pz9.intKind (Pz9.DoubleOps.ofRing Int Int.sqrt)) ⟨[0, 10, 20, 30, 40], 5⟩ 7 150 0 100 =
      (.error (.invalid_argument (Pz9.rangeMessage "150" "0" "100")),
        ⟨[0, 10, 20, 30, 40], 5⟩) ∧
      (⟨[10, -50, 100, -100, 0], 5⟩ : Pz6.Array).setValue 10 150 =
        (.error (.out_of_range (Pz6.indexMessage 10 5)), ⟨[10, -50, 100, -100, 0], 5⟩) :=
  have h := error_precedence
    { lt := fun (x y : Int) => decide (x < y), toString := fun x => toString x,
      toDouble := (Pz9.DoubleOps.ofRing Int Int.sqrt).ofInt }
    ⟨[0, 10, 20, 30, 40], 5⟩ 7 150 0 100 (Or.inr (by decide)) (by decide)
    ⟨[10, -50, 100, -100, 0], 5⟩ 10 150 (Or.inr (by decide)) (Or.inr (by decide))
  ⟨h.1, h.2.2.1⟩

namespace Pz9

/-! ## `pz9.cpp`: symmetry of the distance -/

variable {T : Type}

/-- On numbers the arithmetic with a NaN runs the summing loop as the arithmetic below it. -/
theorem distanceLoop_withNaN {R : Type} (base : DoubleOps R) (dflt : R) (n : Nat)
    (d1 d2 : List R) :
    distanceLoop (DoubleOps.withNaN base) (fun x => x) (some dflt) n (d1.map some)
        (d2.map some) =
      some (distanceLoop base (fun x => x) dflt n d1 d2) := by
  unfold distanceLoop
  induction n with
  | zero => rfl
  | succ k ih =>
    rw [List.range_succ, List.foldl_append, List.foldl_append, ih]
    simp [DoubleOps.withNaN, List.getD_map]

/-- On arrays of `double` that hold numbers, the distance in the arithmetic with a NaN is the
distance in the arithmetic below it. -/
theorem euclideanDistance_withNaN {R : Type} (base : DoubleOps R) (lt : R → R → Bool)
    (toStr : R → String) (dflt : R) (x y : Array R) :
    Array.euclideanDistance (DoubleOps.withNaN base) (doubleKind lt toStr) (some dflt)
        ⟨x.data.map some, x.size⟩ ⟨y.data.map some, y.size⟩ =
      Except.map some
        (Array.euclideanDistance base
          (.arithmetic { lt := lt, toString := toStr, toDouble := fun r => r }) dflt x y) := by
  unfold doubleKind
  rw [euclideanDistance_arithmetic, euclideanDistance_arithmetic]
  by_cases h : x.size = y.size
  · simp only [h, ne_eq, not_true_eq_false, if_false]
    rw [distanceLoop_withNaN]
    rfl
  · simp only [h, ne_eq, not_false_eq_true, if_true]
    rfl

/-- The distance in arithmetic without rounding: same value both ways round, not negative,
and 0 from an array to itself. -/
theorem distance_exact (ops : Arithmetic T ℝ) (dflt : T) (a b : Array T) :
    ((a.getSize ≠ b.getSize ∧
        Array.euclideanDistance (DoubleOps.ofRing ℝ Real.sqrt) (.arithmetic ops) dflt a b =
          .error (.invalid_argument (mismatchMessage a.getSize b.getSize)) ∧
        Array.euclideanDistance (DoubleOps.ofRing ℝ Real.sqrt) (.arithmetic ops) dflt b a =
          .error (.invalid_argument (mismatchMessage b.getSize a.getSize))) ∨
      (a.getSize = b.getSize ∧ ∃ d : ℝ, 0 ≤ d ∧
        Array.euclideanDistance (DoubleOps.ofRing ℝ Real.sqrt) (.arithmetic ops) dflt a b =
          .ok d ∧
        Array.euclideanDistance (DoubleOps.ofRing ℝ Real.sqrt) (.arithmetic ops) dflt b a =
          .ok d)) ∧
      Array.euclideanDistance (DoubleOps.ofRing ℝ Real.sqrt) (.arithmetic ops) dflt a a =
        .ok 0 := by
  constructor
  · by_cases h : a.size = b.size
    · right
      refine ⟨h, _, ?_, euclideanDistance_same_size _ ops dflt a b h, ?_⟩
      · exact Real.sqrt_nonneg _
      · rw [euclideanDistance_same_size _ ops dflt b a h.symm, distanceLoop_ofRing,
          distanceLoop_ofRing, h]
        congr 2
        apply Finset.sum_congr rfl
        intro i _
        ring
    · left
      refine ⟨h, ?_, ?_⟩
      · rw [euclideanDistance_arithmetic, if_pos h]
        rfl
      · rw [euclideanDistance_arithmetic, if_pos (fun e => h e.symm)]
        rfl
  · rw [euclideanDistance_same_size _ ops dflt a a rfl, distanceLoop_ofRing]
    simp [DoubleOps.ofRing]

/-- C23 (the claim fails on the code). An array of `double` can hold a NaN
(`setWithRangeCheck` lets it through, both comparisons being false), and the distance from
such an array to itself is NaN, not 0. -/
theorem distance_of_nan_array :
    ArrayRangeChecker.setWithRangeCheck
        (doubleKind (fun (x y : Int) => decide (x < y)) (fun x => toString x))
        ⟨[some 0], 1⟩ 0 none (some 0) (some 100) = (.ok (), ⟨[none], 1⟩) ∧
      Array.euclideanDistance (DoubleOps.withNaN (DoubleOps.ofRing Int Int.sqrt))
        (doubleKind (fun (x y : Int) => decide (x < y)) (fun x => toString x)) (some 0)
        ⟨[none], 1⟩ ⟨[none], 1⟩ = .ok none ∧
      Array.euclideanDistance (DoubleOps.withNaN (DoubleOps.ofRing Int Int.sqrt))
        (doubleKind (fun (x y : Int) => decide (x < y)) (fun x => toString x)) (some 0)
        ⟨[none], 1⟩ ⟨[none], 1⟩ ≠
          .ok (DoubleOps.withNaN (DoubleOps.ofRing Int Int.sqrt)).zero := by
  refine ⟨by decide, by decide, by decide⟩

/-- C23, as amended. Distance is symmetric and vanishes on equal arrays, for arrays whose
elements are numbers, in arithmetic without rounding: `euclideanDistance(a, b)` and
`euclideanDistance(b, a)` either both throw `invalid_argument` for the sizes or both return
the same value, which is not negative, and `euclideanDistance(a, a)` returns 0; for arrays
`x`, `y` of `double` that hold numbers the arithmetic with a NaN gives those same results. -/
theorem distance_symmetric_on_numbers (ops : Arithmetic T ℝ) (dflt : T) (a b : Array T)
    (lt : ℝ → ℝ → Bool) (toStr : ℝ → String) (x y : Array ℝ) :
    ((a.getSize ≠ b.getSize ∧
        Array.euclideanDistance (DoubleOps.ofRing ℝ Real.sqrt) (.arithmetic ops) dflt a b =
          .error (.invalid_argument (mismatchMessage a.getSize b.getSize)) ∧
        Array.euclideanDistance (DoubleOps.ofRing ℝ Real.sqrt) (.arithmetic ops) dflt b a =
          .error (.invalid_argument (mismatchMessage b.getSize a.getSize))) ∨
      (a.getSize = b.getSize ∧ ∃ d : ℝ, 0 ≤ d ∧
        Array.euclideanDistance (DoubleOps.ofRing ℝ Real.sqrt) (.arithmetic ops) dflt a b =
          .ok d ∧
        Array.euclideanDistance (DoubleOps.ofRing ℝ Real.sqrt) (.arithmetic ops) dflt b a =
          .ok d)) ∧
      Array.euclideanDistance (DoubleOps.ofRing ℝ Real.sqrt) (.arithmetic ops) dflt a a =
        .ok 0 ∧
      ((x.getSize ≠ y.getSize ∧
        Array.euclideanDistance (DoubleOps.withNaN (DoubleOps.ofRing ℝ Real.sqrt))
            (doubleKind lt toStr) (some 0) ⟨x.data.map some, x.size⟩
            ⟨y.data.map some, y.size⟩ =
          .error (.invalid_argument (mismatchMessage x.getSize y.getSize)) ∧
        Array.euclideanDistance (DoubleOps.withNaN (DoubleOps.ofRing ℝ Real.sqrt))
            (doubleKind lt toStr) (some 0) ⟨y.data.map some, y.size⟩
            ⟨x.data.map some, x.size⟩ =
          .error (.invalid_argument (mismatchMessage y.getSize x.getSize))) ∨
      (x.getSize = y.getSize ∧ ∃ d : ℝ, 0 ≤ d ∧
        Array.euclideanDistance (DoubleOps.withNaN (DoubleOps.ofRing ℝ Real.sqrt))
            (doubleKind lt toStr) (some 0) ⟨x.data.map some, x.size⟩
            ⟨y.data.map some, y.size⟩ = .ok (some d) ∧
        Array.euclideanDistance (DoubleOps.withNaN (DoubleOps.ofRing ℝ Real.sqrt))
            (doubleKind lt toStr) (some 0) ⟨y.data.map some, y.size⟩
            ⟨x.data.map some, x.size⟩ = .ok (some d))) ∧
      Array.euclideanDistance (DoubleOps.withNaN (DoubleOps.ofRing ℝ Real.sqrt))
          (doubleKind lt toStr) (some 0) ⟨x.data.map some, x.size⟩
          ⟨x.data.map some, x.size⟩ = .ok (some 0) := by
  obtain ⟨h1, h2⟩ := distance_exact ops dflt a b
  obtain ⟨h3, h4⟩ :=
    distance_exact { lt := lt, toString := toStr, toDouble := fun r => r } 0 x y
  refine ⟨h1, h2, ?_, ?_⟩
  · rcases h3 with ⟨hne, e1, e2⟩ | ⟨he, d, hd, e1, e2⟩
    · left
      refine ⟨hne, ?_, ?_⟩
      · rw [euclideanDistance_withNaN, e1]; rfl
      · rw [euclideanDistance_withNaN, e2]; rfl
    · right
      refine ⟨he, d, hd, ?_, ?_⟩
      · rw [euclideanDistance_withNaN, e1]; rfl
      · rw [euclideanDistance_withNaN, e2]; rfl
  · rw [euclideanDistance_withNaN, h4]; rfl

end Pz9
